import Mathlib

/-!
Verification of the OSMtoSQLiteCoordinatesExtractor repository.

The development shallowly embeds the three Python source files
(`main.py`, `find_coordinates.py`, `address_finder.py`):

* SQLite tables become Lean lists of row structures; the on-disk tree of
  SQLite files becomes an association list from (root-relative) path
  strings to tables, collected in the `FS` structure.
* Python floats are modelled as exact rationals (`ℚ`); coordinate
  arithmetic in the source is sums, divisions and comparisons, which the
  claims treat as exact arithmetic.
* `datetime.now()` timestamps are passed in as explicit string
  parameters.
* Fallible operations return `Option`; `sys.exit(1)` on the forward
  geocoder's parse step is the distinguished outcome `FwdOutcome.fatal`.
* Python's `str.lower()` is modelled on the alphabet the program works
  with (ASCII plus the Polish diacritic letters); SQLite's `lower()`
  folds ASCII only, and is modelled separately as `sqliteLowerChar`.
-/

namespace OSM

/-! ## Characters and strings: Python `strip`, `split`, `lower`, SQLite `lower` -/

/-- Whitespace characters stripped by Python's `str.strip()`. -/
def isPySpace (c : Char) : Bool :=
  c == ' ' || c == '\t' || c == '\n' || c == '\r' || c == '\x0b' || c == '\x0c'

/-- Python `str.strip()` on a character list: drop whitespace from both ends. -/
def pyStripChars (l : List Char) : List Char :=
  ((l.dropWhile isPySpace).reverse.dropWhile isPySpace).reverse

/-- Python `str.split(',')` on a character list: split at every comma,
keeping empty pieces (so the empty string yields one empty piece). -/
def splitOnComma : List Char → List (List Char)
  | [] => [[]]
  | c :: rest =>
    if c = ',' then [] :: splitOnComma rest
    else
      match splitOnComma rest with
      | [] => [[c]]
      | p :: ps => (c :: p) :: ps

/-- Python `str.lower()` per character, on the modelled alphabet:
ASCII letters plus the Polish diacritic letters appearing in `main.py`. -/
def pyLowerChar (c : Char) : Char :=
  if 'A' ≤ c ∧ c ≤ 'Z' then Char.ofNat (c.toNat + 32)
  else if c = 'Ą' then 'ą'
  else if c = 'Ć' then 'ć'
  else if c = 'Ę' then 'ę'
  else if c = 'Ł' then 'ł'
  else if c = 'Ń' then 'ń'
  else if c = 'Ó' then 'ó'
  else if c = 'Ś' then 'ś'
  else if c = 'Ź' then 'ź'
  else if c = 'Ż' then 'ż'
  else c

/-- SQLite's `lower()` SQL function folds ASCII letters only. -/
def sqliteLowerChar (c : Char) : Char :=
  if 'A' ≤ c ∧ c ≤ 'Z' then Char.ofNat (c.toNat + 32) else c

/-- Python `str.lower()` lifted to strings. -/
def pyLowerStr (s : String) : String := String.mk (s.data.map pyLowerChar)

/-- SQLite `lower()` lifted to strings. -/
def sqliteLowerStr (s : String) : String := String.mk (s.data.map sqliteLowerChar)

/-- Python `str.strip()` lifted to strings. -/
def pyStripStr (s : String) : String := String.mk (pyStripChars s.data)

/-! ## The locality-name slug function (`main.py` lines 145-171)

`convert_polish_locality_name_to_restricted_in_filesystem` lowercases its
input, then runs one fused loop that substitutes a fixed set of Polish
diacritics and the space character and drops every other character not in
its allow-list.  The `dt` parameter stands for the
`datetime.now().strftime(...)` value read at call time. -/

/-- One iteration of the loop body of
`convert_polish_locality_name_to_restricted_in_filesystem`, acting on an
already-lowercased character: the `if`/`elif` substitution chain followed
by the allow-list test, `none` meaning `continue` (drop). -/
def codeStep (c : Char) : Option Char :=
  if c = 'ą' then some 'a'
  else if c = ' ' then some '_'
  else if c = 'ć' then some 'c'
  else if c = 'ę' then some 'e'
  else if c = 'ł' then some 'l'
  else if c = 'ó' then some 'o'
  else if c = 'ś' then some 's'
  else if c = 'ź' then some 'z'
  else if c = 'ż' then some 'z'
  else if "aąbcdefghijklmnopqrstuvwxyz_".data.contains c then some c
  else none

/-- Model of `convert_polish_locality_name_to_restricted_in_filesystem` from
`main.py`: empty input or an empty loop result falls back to
`noname_<timestamp>`. -/
def convert_polish_locality_name_to_restricted_in_filesystem
    (dt : String) (raw : String) : String :=
  if raw = "" then "noname_" ++ dt
  else
    let out := String.mk ((raw.data.map pyLowerChar).filterMap codeStep)
    if out = "" then "noname_" ++ dt else out

/-- The claim/spec description of the per-character substitution: each of
the eight diacritics `ą ć ę ł ó ś ź ż` goes to its base Latin letter and a
space goes to an underscore. -/
def substPolishChar (c : Char) : Char :=
  if c = 'ą' then 'a'
  else if c = ' ' then '_'
  else if c = 'ć' then 'c'
  else if c = 'ę' then 'e'
  else if c = 'ł' then 'l'
  else if c = 'ó' then 'o'
  else if c = 'ś' then 's'
  else if c = 'ź' then 'z'
  else if c = 'ż' then 'z'
  else c

/-- Membership in the character class `[a-z_]` used by the spec's
description of the slug filter. -/
def specAllowedChar (c : Char) : Bool :=
  "abcdefghijklmnopqrstuvwxyz_".data.contains c

/-- The transformation as the spec words it: lowercase, substitute the
diacritics and spaces, then drop (not substitute) every remaining
character outside `[a-z_]`. -/
def slugSpecTransform (s : String) : String :=
  String.mk (((s.data.map pyLowerChar).map substPolishChar).filter specAllowedChar)

/-- The fused loop body agrees pointwise with substitute-then-filter. -/
theorem codeStep_eq_spec (c : Char) :
    codeStep c =
      if specAllowedChar (substPolishChar c) then some (substPolishChar c)
      else none := by
  by_cases h1 : c = 'ą'; · subst h1; decide
  by_cases h2 : c = ' '; · subst h2; decide
  by_cases h3 : c = 'ć'; · subst h3; decide
  by_cases h4 : c = 'ę'; · subst h4; decide
  by_cases h5 : c = 'ł'; · subst h5; decide
  by_cases h6 : c = 'ó'; · subst h6; decide
  by_cases h7 : c = 'ś'; · subst h7; decide
  by_cases h8 : c = 'ź'; · subst h8; decide
  by_cases h9 : c = 'ż'; · subst h9; decide
  have hsub : substPolishChar c = c := by
    simp [substPolishChar, h1, h2, h3, h4, h5, h6, h7, h8, h9]
  simp only [codeStep, h1, h2, h3, h4, h5, h6, h7, h8, h9, if_false, hsub]
  have hmem : ("aąbcdefghijklmnopqrstuvwxyz_".data.contains c) = specAllowedChar c := by
    show (['a', 'ą', 'b', 'c', 'd', 'e', 'f', 'g', 'h', 'i', 'j', 'k', 'l', 'm', 'n',
      'o', 'p', 'q', 'r', 's', 't', 'u', 'v', 'w', 'x', 'y', 'z', '_'].contains c) =
      (['a', 'b', 'c', 'd', 'e', 'f', 'g', 'h', 'i', 'j', 'k', 'l', 'm', 'n',
      'o', 'p', 'q', 'r', 's', 't', 'u', 'v', 'w', 'x', 'y', 'z', '_'].contains c)
    simp only [List.contains_cons]
    have : (c == 'ą') = false := by simpa using h1
    simp [this]
  rw [hmem]

/-- Fusing the loop: the code's `filterMap` equals the spec's
map-then-filter, character list by character list. -/
theorem filterMap_codeStep_eq (l : List Char) :
    l.filterMap codeStep = (l.map substPolishChar).filter specAllowedChar := by
  induction l with
  | nil => rfl
  | cons c rest ih =>
    simp only [List.filterMap_cons, List.map_cons, List.filter_cons, codeStep_eq_spec c]
    by_cases h : specAllowedChar (substPolishChar c)
    · simp [h, ih]
    · simp [h, ih]

/-- On non-degenerate inputs the slug function computes exactly the
spec-described transformation, independent of the timestamp. -/
theorem conv_eq_spec (dt s : String) (h : slugSpecTransform s ≠ "") :
    convert_polish_locality_name_to_restricted_in_filesystem dt s =
      slugSpecTransform s := by
  have hs : s ≠ "" := by
    intro he
    subst he
    exact h rfl
  unfold convert_polish_locality_name_to_restricted_in_filesystem
  rw [if_neg hs]
  have hfuse : String.mk ((s.data.map pyLowerChar).filterMap codeStep) =
      slugSpecTransform s := by
    unfold slugSpecTransform
    rw [filterMap_codeStep_eq]
  simp only [hfuse]
  rw [if_neg h]

/-- The slug function never returns the empty string. -/
theorem conv_ne_empty (dt s : String) :
    convert_polish_locality_name_to_restricted_in_filesystem dt s ≠ "" := by
  unfold convert_polish_locality_name_to_restricted_in_filesystem
  by_cases hs : s = ""
  · simp [hs]
    intro hcon
    have : ("noname_" ++ dt).data = "".data := congrArg String.data hcon
    simp at this
  · rw [if_neg hs]
    by_cases ho : String.mk ((s.data.map pyLowerChar).filterMap codeStep) = ""
    · simp only [ho, if_pos rfl]
      intro hcon
      have : ("noname_" ++ dt).data = "".data := congrArg String.data hcon
      simp at this
    · rw [if_neg ho]
      exact ho

/-- On degenerate inputs (empty, or nothing survives the filter) the slug
function returns the timestamped placeholder. -/
theorem conv_degenerate (dt s : String) (h : s = "" ∨ slugSpecTransform s = "") :
    convert_polish_locality_name_to_restricted_in_filesystem dt s =
      "noname_" ++ dt := by
  unfold convert_polish_locality_name_to_restricted_in_filesystem
  rcases h with h | h
  · simp [h]
  · by_cases hs : s = ""
    · simp [hs]
    · rw [if_neg hs]
      have hfuse : String.mk ((s.data.map pyLowerChar).filterMap codeStep) =
          slugSpecTransform s := by
        unfold slugSpecTransform
        rw [filterMap_codeStep_eq]
      rw [hfuse, if_pos h]

/-! ## Association lists: in-memory dicts and the on-disk file tree

Python dicts (`nodes_dict`, `collector.addresses`) and the mapping from
root-relative file paths to SQLite file contents are both modelled as
association lists with first-match lookup and in-place update. -/

/-- First-match lookup in an association list (Python dict `get` /
"open this file path"). -/
def alookup {κ α : Type} [DecidableEq κ] : List (κ × α) → κ → Option α
  | [], _ => none
  | e :: m, k => if e.1 = k then some e.2 else alookup m k

/-- Update the binding of a key, appending a new binding if absent. -/
def aupdate {κ α : Type} [DecidableEq κ] : List (κ × α) → κ → α → List (κ × α)
  | [], k, v => [(k, v)]
  | e :: m, k, v => if e.1 = k then (k, v) :: m else e :: aupdate m k v

theorem alookup_aupdate {κ α : Type} [DecidableEq κ]
    (m : List (κ × α)) (k j : κ) (v : α) :
    alookup (aupdate m k v) j = if j = k then some v else alookup m j := by
  induction m with
  | nil =>
    by_cases h : j = k
    · subst h; simp [aupdate, alookup]
    · have h2 : ¬ k = j := fun hh => h hh.symm
      simp [aupdate, alookup, h, h2]
  | cons e m ih =>
    obtain ⟨k2, v2⟩ := e
    by_cases he : k2 = k
    · subst he
      by_cases hj : j = k2
      · subst hj; simp [aupdate, alookup]
      · have hj2 : ¬ k2 = j := fun hh => hj hh.symm
        simp [aupdate, alookup, hj, hj2]
    · by_cases hj : k2 = j
      · subst hj
        have hjk : ¬ k2 = k := he
        simp [aupdate, alookup, he, hjk]
      · by_cases hk : j = k
        · subst hk
          simp [aupdate, alookup, he, hj, ih]
        · simp [aupdate, alookup, he, hj, hk, ih]

theorem mem_of_alookup_eq_some {κ α : Type} [DecidableEq κ]
    {m : List (κ × α)} {k : κ} {v : α} (h : alookup m k = some v) :
    (k, v) ∈ m := by
  induction m with
  | nil => simp [alookup] at h
  | cons e m ih =>
    obtain ⟨k2, v2⟩ := e
    by_cases he : k2 = k
    · subst he
      simp only [alookup, if_pos] at h
      simp at h
      subst h
      exact List.mem_cons_self _ _
    · simp only [alookup, if_neg he] at h
      exact List.mem_cons_of_mem _ (ih h)

def keysNodup {κ α : Type} (m : List (κ × α)) : Prop := (m.map Prod.fst).Nodup

theorem keys_aupdate_subset {κ α : Type} [DecidableEq κ]
    {m : List (κ × α)} {k j : κ} {v : α}
    (h : j ∈ (aupdate m k v).map Prod.fst) : j = k ∨ j ∈ m.map Prod.fst := by
  induction m with
  | nil =>
    simp [aupdate] at h
    exact Or.inl h
  | cons e m ih =>
    obtain ⟨k2, v2⟩ := e
    by_cases he : k2 = k
    · subst he
      simp only [aupdate, if_pos] at h
      simp at h
      rcases h with hh | hh
      · exact Or.inl hh
      · exact Or.inr (by simp [hh])
    · simp only [aupdate, if_neg he, List.map_cons, List.mem_cons] at h
      rcases h with hh | hh
      · exact Or.inr (by simp [hh])
      · rcases ih hh with h2 | h2
        · exact Or.inl h2
        · exact Or.inr (by simp [h2])

theorem keysNodup_aupdate {κ α : Type} [DecidableEq κ]
    {m : List (κ × α)} (k : κ) (v : α) (h : keysNodup m) :
    keysNodup (aupdate m k v) := by
  induction m with
  | nil => simp [aupdate, keysNodup]
  | cons e m ih =>
    obtain ⟨k2, v2⟩ := e
    unfold keysNodup at h
    simp only [List.map_cons, List.nodup_cons] at h
    by_cases he : k2 = k
    · subst he
      unfold keysNodup
      simp only [aupdate, if_pos]
      simp only [List.map_cons, List.nodup_cons]
      exact ⟨h.1, h.2⟩
    · unfold keysNodup
      simp only [aupdate, if_neg he, List.map_cons, List.nodup_cons]
      refine ⟨?_, ih h.2⟩
      intro hmem
      rcases keys_aupdate_subset hmem with hh | hh
      · exact he hh
      · exact h.1 hh

theorem alookup_eq_some_of_mem {κ α : Type} [DecidableEq κ]
    {m : List (κ × α)} {k : κ} {v : α} (hn : keysNodup m) (h : (k, v) ∈ m) :
    alookup m k = some v := by
  induction m with
  | nil => simp at h
  | cons e m ih =>
    obtain ⟨k2, v2⟩ := e
    unfold keysNodup at hn
    simp only [List.map_cons, List.nodup_cons] at hn
    rcases List.mem_cons.mp h with hh | hh
    · have hk : k = k2 := congrArg Prod.fst hh
      have hv : v = v2 := congrArg Prod.snd hh
      subst hk
      subst hv
      simp [alookup]
    · have hke : ¬ k2 = k := by
        intro hcon
        subst hcon
        exact hn.1 (List.mem_map_of_mem Prod.fst hh)
      simp only [alookup, if_neg hke]
      exact ih hn.2 hh

/-! ## SQL aggregates: `MIN`/`MAX` over a column -/

/-- SQL `MIN(...)` over a column: `none` on the empty table. -/
def qmin : List ℚ → Option ℚ
  | [] => none
  | x :: xs => some (xs.foldl min x)

/-- SQL `MAX(...)` over a column: `none` on the empty table. -/
def qmax : List ℚ → Option ℚ
  | [] => none
  | x :: xs => some (xs.foldl max x)

theorem foldl_min_mem (xs : List ℚ) : ∀ x : ℚ, xs.foldl min x ∈ x :: xs := by
  induction xs with
  | nil => intro x; simp
  | cons y ys ih =>
    intro x
    simp only [List.foldl_cons]
    rcases List.mem_cons.mp (ih (min x y)) with h | h
    · rcases min_choice x y with hm | hm
      · exact List.mem_cons.mpr (Or.inl (h.trans hm))
      · exact List.mem_cons_of_mem _ (List.mem_cons.mpr (Or.inl (h.trans hm)))
    · exact List.mem_cons_of_mem _ (List.mem_cons_of_mem _ h)

theorem foldl_min_le (xs : List ℚ) : ∀ x : ℚ, ∀ y ∈ x :: xs, xs.foldl min x ≤ y := by
  induction xs with
  | nil => intro x; simp
  | cons z zs ih =>
    intro x y hy
    simp only [List.foldl_cons]
    have hbase : zs.foldl min (min x z) ≤ min x z :=
      ih (min x z) (min x z) (List.mem_cons_self _ _)
    rcases List.mem_cons.mp hy with h | h
    · subst h
      exact le_trans hbase (min_le_left _ _)
    · rcases List.mem_cons.mp h with h2 | h2
      · subst h2
        exact le_trans hbase (min_le_right _ _)
      · exact ih (min x z) y (List.mem_cons_of_mem _ h2)

theorem qmin_mem {xs : List ℚ} {m : ℚ} (h : qmin xs = some m) : m ∈ xs := by
  cases xs with
  | nil => simp [qmin] at h
  | cons x l =>
    simp only [qmin, Option.some.injEq] at h
    subst h
    exact foldl_min_mem l x

theorem qmin_le {xs : List ℚ} {m : ℚ} (h : qmin xs = some m) : ∀ y ∈ xs, m ≤ y := by
  cases xs with
  | nil => simp [qmin] at h
  | cons x l =>
    simp only [qmin, Option.some.injEq] at h
    subst h
    exact foldl_min_le l x

theorem qmin_isSome {xs : List ℚ} (h : xs ≠ []) : (qmin xs).isSome := by
  cases xs with
  | nil => exact absurd rfl h
  | cons x l => simp [qmin]

theorem qmin_eq_none_iff {xs : List ℚ} : qmin xs = none ↔ xs = [] := by
  cases xs <;> simp [qmin]

theorem foldl_max_mem (xs : List ℚ) : ∀ x : ℚ, xs.foldl max x ∈ x :: xs := by
  induction xs with
  | nil => intro x; simp
  | cons y ys ih =>
    intro x
    simp only [List.foldl_cons]
    rcases List.mem_cons.mp (ih (max x y)) with h | h
    · rcases max_choice x y with hm | hm
      · exact List.mem_cons.mpr (Or.inl (h.trans hm))
      · exact List.mem_cons_of_mem _ (List.mem_cons.mpr (Or.inl (h.trans hm)))
    · exact List.mem_cons_of_mem _ (List.mem_cons_of_mem _ h)

theorem foldl_max_ge (xs : List ℚ) : ∀ x : ℚ, ∀ y ∈ x :: xs, y ≤ xs.foldl max x := by
  induction xs with
  | nil => intro x; simp
  | cons z zs ih =>
    intro x y hy
    simp only [List.foldl_cons]
    have hbase : max x z ≤ zs.foldl max (max x z) :=
      ih (max x z) (max x z) (List.mem_cons_self _ _)
    rcases List.mem_cons.mp hy with h | h
    · subst h
      exact le_trans (le_max_left _ _) hbase
    · rcases List.mem_cons.mp h with h2 | h2
      · subst h2
        exact le_trans (le_max_right _ _) hbase
      · exact ih (max x z) y (List.mem_cons_of_mem _ h2)

theorem qmax_mem {xs : List ℚ} {m : ℚ} (h : qmax xs = some m) : m ∈ xs := by
  cases xs with
  | nil => simp [qmax] at h
  | cons x l =>
    simp only [qmax, Option.some.injEq] at h
    subst h
    exact foldl_max_mem l x

theorem qmax_ge {xs : List ℚ} {m : ℚ} (h : qmax xs = some m) : ∀ y ∈ xs, y ≤ m := by
  cases xs with
  | nil => simp [qmax] at h
  | cons x l =>
    simp only [qmax, Option.some.injEq] at h
    subst h
    exact foldl_max_ge l x

theorem qmax_isSome {xs : List ℚ} (h : xs ≠ []) : (qmax xs).isSome := by
  cases xs with
  | nil => exact absurd rfl h
  | cons x l => simp [qmax]

/-- Two lists that dominate each other element-wise have the same minimum. -/
theorem qmin_congr {xs ys : List ℚ}
    (h1 : ∀ x ∈ xs, ∃ y ∈ ys, y ≤ x) (h2 : ∀ y ∈ ys, ∃ x ∈ xs, x ≤ y) :
    qmin xs = qmin ys := by
  cases hx : qmin xs with
  | none =>
    rw [qmin_eq_none_iff] at hx
    subst hx
    rcases hy : qmin ys with _ | m
    · rfl
    · exfalso
      obtain ⟨x, hxm, _⟩ := h2 m (qmin_mem hy)
      simp at hxm
  | some m =>
    cases hy : qmin ys with
    | none =>
      rw [qmin_eq_none_iff] at hy
      subst hy
      exfalso
      obtain ⟨y, hym, _⟩ := h1 m (qmin_mem hx)
      simp at hym
    | some n =>
      congr 1
      apply le_antisymm
      · obtain ⟨x, hxm, hle⟩ := h2 n (qmin_mem hy)
        exact le_trans (qmin_le hx x hxm) hle
      · obtain ⟨y, hym, hle⟩ := h1 m (qmin_mem hx)
        exact le_trans (qmin_le hy y hym) hle

/-- Two lists that dominate each other element-wise have the same maximum. -/
theorem qmax_congr {xs ys : List ℚ}
    (h1 : ∀ x ∈ xs, ∃ y ∈ ys, x ≤ y) (h2 : ∀ y ∈ ys, ∃ x ∈ xs, y ≤ x) :
    qmax xs = qmax ys := by
  cases hx : qmax xs with
  | none =>
    have hxe : xs = [] := by
      cases xs with
      | nil => rfl
      | cons a l => simp [qmax] at hx
    subst hxe
    cases hy : qmax ys with
    | none => rfl
    | some m =>
      exfalso
      obtain ⟨x, hxm, _⟩ := h2 m (qmax_mem hy)
      simp at hxm
  | some m =>
    cases hy : qmax ys with
    | none =>
      have hye : ys = [] := by
        cases ys with
        | nil => rfl
        | cons a l => simp [qmax] at hy
      subst hye
      exfalso
      obtain ⟨y, hym, _⟩ := h1 m (qmax_mem hx)
      simp at hym
    | some n =>
      congr 1
      apply le_antisymm
      · obtain ⟨y, hym, hle⟩ := h1 m (qmax_mem hx)
        exact le_trans hle (qmax_ge hy y hym)
      · obtain ⟨x, hxm, hle⟩ := h2 n (qmax_mem hy)
        exact le_trans hle (qmax_ge hx x hxm)

/-! ## Data model: table rows and the on-disk tree

Row structures mirror the SQLite schemas created in `main.py`:
`addresses(street, housenumber, latitude, longitude)`,
`localities(locality_name, db_path, min_lat, max_lat, min_lon, max_lon)`,
`regions(region_name, region_dir, ...)`, `countries(country_name,
country_dir, ...)`.  None of these tables declares a primary key or
uniqueness constraint. -/

/-- A row of a locality `addresses` table. -/
structure AddrRow where
  street : String
  housenumber : String
  latitude : ℚ
  longitude : ℚ
deriving DecidableEq, Repr

/-- A row of a region inventory `localities` table. -/
structure LocRow where
  locality_name : String
  db_path : String
  min_lat : ℚ
  max_lat : ℚ
  min_lon : ℚ
  max_lon : ℚ
deriving DecidableEq, Repr

/-- A row of a country inventory `regions` table. -/
structure RegionRow where
  region_name : String
  region_dir : String
  min_lat : ℚ
  max_lat : ℚ
  min_lon : ℚ
  max_lon : ℚ
deriving DecidableEq, Repr

/-- A row of the global inventory `countries` table. -/
structure CountryRow where
  country_name : String
  country_dir : String
  min_lat : ℚ
  max_lat : ℚ
  min_lon : ℚ
  max_lon : ℚ
deriving DecidableEq, Repr

/-- A bounding box as the four aggregate values of one inventory row. -/
structure BBox where
  min_lat : ℚ
  max_lat : ℚ
  min_lon : ℚ
  max_lon : ℚ
deriving DecidableEq, Repr

/-- The persisted state under the process root: the global inventory file,
the country inventory files (keyed by the country directory's relative
path), the region inventory files (keyed by the region directory's
relative path), and the locality address tables (keyed by the `.sqlite`
file's relative path).  A key that is absent models a file that does not
exist on disk. -/
structure FS where
  globalInv : List CountryRow
  countryInvs : List (String × List RegionRow)
  regionInvs : List (String × List LocRow)
  localityDbs : List (String × List AddrRow)
deriving DecidableEq, Repr

/-- The state before any ingestion run. -/
def emptyFS : FS := { globalInv := [], countryInvs := [], regionInvs := [], localityDbs := [] }

/-- Read a locality address table (open the `.sqlite` file at a path). -/
def FS.dbAt (fs : FS) (p : String) : Option (List AddrRow) := alookup fs.localityDbs p

/-- Overwrite (or create) a locality address table. -/
def FS.setDb (fs : FS) (p : String) (t : List AddrRow) : FS :=
  { fs with localityDbs := aupdate fs.localityDbs p t }

/-- Model of `SELECT MIN(latitude), MAX(latitude), MIN(longitude), MAX(longitude)
FROM addresses` (`main.py` line 206): all four aggregates are `NULL`
exactly when the table is empty. -/
def envelope (t : List AddrRow) : Option BBox :=
  match qmin (t.map AddrRow.latitude), qmax (t.map AddrRow.latitude),
      qmin (t.map AddrRow.longitude), qmax (t.map AddrRow.longitude) with
  | some a, some b, some c, some d => some ⟨a, b, c, d⟩
  | _, _, _, _ => none

/-- Model of `SELECT MIN(min_lat), MAX(max_lat), MIN(min_lon), MAX(max_lon) FROM
localities` (`main.py` line 356). -/
def locBounds (rows : List LocRow) : Option BBox :=
  match qmin (rows.map LocRow.min_lat), qmax (rows.map LocRow.max_lat),
      qmin (rows.map LocRow.min_lon), qmax (rows.map LocRow.max_lon) with
  | some a, some b, some c, some d => some ⟨a, b, c, d⟩
  | _, _, _, _ => none

/-- Model of `SELECT MIN(min_lat), MAX(max_lat), MIN(min_lon), MAX(max_lon) FROM
regions` (`main.py` line 369). -/
def regBounds (rows : List RegionRow) : Option BBox :=
  match qmin (rows.map RegionRow.min_lat), qmax (rows.map RegionRow.max_lat),
      qmin (rows.map RegionRow.min_lon), qmax (rows.map RegionRow.max_lon) with
  | some a, some b, some c, some d => some ⟨a, b, c, d⟩
  | _, _, _, _ => none

/-! ## Ingestion (`main.py`)

An address record collected by `AddressCollector.way` is `(street,
housenumber, node_refs)`; the collected addresses are a dict from
locality name to record list, and `nodes_dict` maps node id to a
coordinate pair (latitude, longitude). -/

/-- A collected address way: `(street, housenumber, node_refs)`. -/
structure AddrIn where
  street : String
  housenumber : String
  node_refs : List Nat
deriving DecidableEq, Repr

/-- Path of a country directory relative to the process root. -/
def countryDirOf (country : String) : String := "results/" ++ country

/-- Path of a region directory relative to the process root. -/
def regionDirOf (country region : String) : String :=
  countryDirOf country ++ "/" ++ region

/-- Path of a locality's address table file relative to the process root
(`os.path.join(output_dir, "localities", f"{locality_filename}.sqlite")`).
-/
def dbPathOf (country region dt locality : String) : String :=
  regionDirOf country region ++ "/localities/" ++
    convert_polish_locality_name_to_restricted_in_filesystem dt locality ++ ".sqlite"

/-- The per-address body of `process_addresses_to_db` (`main.py` lines
246-254): keep the node references that resolve (with multiplicity), drop
the address if none do, otherwise average the resolved coordinates. -/
def aggregate (nd : List (Nat × (ℚ × ℚ))) (a : AddrIn) : Option AddrRow :=
  let valid := a.node_refs.filterMap (alookup nd)
  match valid with
  | [] => none
  | _ =>
    some { street := a.street, housenumber := a.housenumber,
           latitude := (valid.map Prod.fst).sum / valid.length,
           longitude := (valid.map Prod.snd).sum / valid.length }

/-- Model of `process_addresses_to_db` (`main.py` lines 227-260): for each locality
in dict order, open (creating if needed) its table file and insert the
surviving address rows.  `CREATE TABLE IF NOT EXISTS` plus `INSERT` means
rows already in an existing file are kept and the new rows appended. -/
def process_addresses_to_db (nd : List (Nat × (ℚ × ℚ))) (country region dt : String)
    (addresses : List (String × List AddrIn)) (fs : FS) : FS :=
  addresses.foldl (fun acc entry =>
    let p := dbPathOf country region dt entry.1
    acc.setDb p (((acc.dbAt p).getD []) ++ entry.2.filterMap (aggregate nd))) fs

/-- The body of `create_inventory_db`'s per-locality loop at region level
(`main.py` lines 198-221): recompute the slugged path, run the `MIN/MAX`
aggregate over that table, skip the locality on a read error (missing
file/table) and skip it when the aggregate is `NULL`; otherwise produce
the inventory row. -/
def invRowFor (country region dt : String) (fs : FS) (entry : String × List AddrIn) :
    Option LocRow :=
  match fs.dbAt (dbPathOf country region dt entry.1) with
  | none => none
  | some t =>
    match envelope t with
    | none => none
    | some b =>
      some { locality_name := entry.1, db_path := dbPathOf country region dt entry.1,
             min_lat := b.min_lat, max_lat := b.max_lat,
             min_lon := b.min_lon, max_lon := b.max_lon }

/-- Model of `create_inventory_db(output_dir, addresses, level='region')`
(`main.py` lines 173-225): open (creating if needed) the region
inventory, and append one row per locality whose aggregate produced a
bounding box. -/
def create_inventory_db (country region dt : String)
    (addresses : List (String × List AddrIn)) (fs : FS) : FS :=
  let key := regionDirOf country region
  let old := (alookup fs.regionInvs key).getD []
  { fs with regionInvs :=
      aupdate fs.regionInvs key (old ++ addresses.filterMap (invRowFor country region dt fs)) }

/-- Model of `update_country_inventory` (`main.py` lines 262-284).  The `regions`
table has no uniqueness constraint, so SQLite's `INSERT OR REPLACE` never
finds a conflicting row and behaves as a plain `INSERT` appending a new
row. -/
def update_country_inventory (country region : String) (b : BBox) (fs : FS) : FS :=
  let key := countryDirOf country
  let old := (alookup fs.countryInvs key).getD []
  let row : RegionRow :=
    { region_name := region, region_dir := regionDirOf country region,
      min_lat := b.min_lat, max_lat := b.max_lat,
      min_lon := b.min_lon, max_lon := b.max_lon }
  { fs with countryInvs := aupdate fs.countryInvs key (old ++ [row]) }

/-- Model of `update_global_inventory` (`main.py` lines 286-308); like the country
inventory, `countries` has no uniqueness constraint, so the `INSERT OR
REPLACE` appends. -/
def update_global_inventory (country : String) (b : BBox) (fs : FS) : FS :=
  let row : CountryRow :=
    { country_name := country, country_dir := countryDirOf country,
      min_lat := b.min_lat, max_lat := b.max_lat,
      min_lon := b.min_lon, max_lon := b.max_lon }
  { fs with globalInv := fs.globalInv ++ [row] }

/-- The ingestion tail of `__main__` (`main.py` lines 344-377): write the
locality tables, write the region inventory, aggregate the region bounds
from it, and if non-`NULL` update the country inventory, aggregate the
country bounds and if non-`NULL` update the global inventory. -/
def runIngestion (country region dt : String) (addresses : List (String × List AddrIn))
    (nd : List (Nat × (ℚ × ℚ))) (fs : FS) : FS :=
  let fs1 := process_addresses_to_db nd country region dt addresses fs
  let fs2 := create_inventory_db country region dt addresses fs1
  match locBounds ((alookup fs2.regionInvs (regionDirOf country region)).getD []) with
  | none => fs2
  | some rb =>
    let fs3 := update_country_inventory country region rb fs2
    match regBounds ((alookup fs3.countryInvs (countryDirOf country)).getD []) with
    | none => fs3
    | some cb => update_global_inventory country cb fs3

/-! ## The forward geocoder (`find_coordinates.py`) -/

/-- Model of `parse_address` (`find_coordinates.py` lines 22-32): split on commas,
strip each part, require exactly four parts, lowercase the country.
`none` models the `sys.exit(1)` in the `except` branch. -/
def parse_address (s : String) : Option (String × String × String × String) :=
  match (splitOnComma s.data).map (fun l => String.mk (pyStripChars l)) with
  | [c, l, st, hn] => some (pyLowerStr c, l, st, hn)
  | _ => none

/-- Model of `find_country_dir` (`find_coordinates.py` lines 34-57):
`SELECT country_dir FROM countries WHERE lower(country_name) = ?` with the
already-lowercased query country; `fetchone()` takes the first row. -/
def find_country_dir (fs : FS) (country : String) : Option String :=
  (fs.globalInv.find? (fun r => sqliteLowerStr r.country_name == country)).map
    CountryRow.country_dir

/-- The region loop of `find_locality_db` (`find_coordinates.py` lines
76-95): walk the regions in inventory order; a region whose inventory
file is missing is skipped with a warning; the first region whose
inventory has a row for the locality (exact, case-sensitive) wins and
returns that row's `db_path`. -/
def scanRegions (fs : FS) (locality : String) : List RegionRow → Option String
  | [] => none
  | rg :: rest =>
    match alookup fs.regionInvs rg.region_dir with
    | none => scanRegions fs locality rest
    | some rows =>
      match rows.find? (fun lr => lr.locality_name == locality) with
      | none => scanRegions fs locality rest
      | some lr => some lr.db_path

/-- Model of `find_locality_db` (`find_coordinates.py` lines 59-98): read the
country inventory's full region list (`SELECT region_dir FROM regions`),
then scan. -/
def find_locality_db (fs : FS) (country_dir locality : String) : Option String :=
  match alookup fs.countryInvs country_dir with
  | none => none
  | some regions => scanRegions fs locality regions

/-- Model of `find_coordinates` (`find_coordinates.py` lines 100-122):
`SELECT latitude, longitude FROM addresses WHERE street = ? AND
housenumber = ?`; `fetchone()` takes the first matching row. -/
def find_coordinates (fs : FS) (db_path street housenumber : String) : Option (ℚ × ℚ) :=
  match fs.dbAt db_path with
  | none => none
  | some rows =>
    (rows.find? (fun r => r.street == street && r.housenumber == housenumber)).map
      (fun r => (r.latitude, r.longitude))

/-- Outcome of one `get_coordinates` invocation: fatal usage exit from
`parse_address`, a tagged not-found error, or the resolved record. -/
inductive FwdOutcome where
  | fatal
  | err (msg : String)
  | ok (country locality street housenumber : String) (lat lon : ℚ)
deriving DecidableEq, Repr

/-- Model of `get_coordinates` (`find_coordinates.py` lines 124-151). -/
def get_coordinates (fs : FS) (s : String) : FwdOutcome :=
  match parse_address s with
  | none => FwdOutcome.fatal
  | some (country, locality, street, housenumber) =>
    match find_country_dir fs country with
    | none => FwdOutcome.err "ER - Country not found in global inventory."
    | some country_dir =>
      match find_locality_db fs country_dir locality with
      | none => FwdOutcome.err "ER - Locality not found in country inventory."
      | some locality_db_path =>
        match find_coordinates fs locality_db_path street housenumber with
        | none => FwdOutcome.err "ER - Coordinates not found for given address."
        | some (lat, lon) =>
          FwdOutcome.ok country locality street housenumber lat lon

/-- The post-parse resolution chain of `get_coordinates`, as composed by
the source: country step, then locality step, then coordinate step. -/
def fwdResolve (fs : FS) (country locality street housenumber : String) : Option (ℚ × ℚ) :=
  (find_country_dir fs country).bind (fun country_dir =>
    (find_locality_db fs country_dir locality).bind (fun p =>
      find_coordinates fs p street housenumber))

/-! ## The reverse geocoder's nearest-address step (`address_finder.py`) -/

/-- The SQL distance expression of `find_nearest_address`:
`(latitude - ?) * (latitude - ?) + (longitude - ?) * (longitude - ?)`,
squared planar Euclidean distance with no geographic correction. -/
def dist2 (lat lon : ℚ) (r : AddrRow) : ℚ :=
  (r.latitude - lat) * (r.latitude - lat) + (r.longitude - lon) * (r.longitude - lon)

/-- Model of `ORDER BY distance LIMIT 1` over the rows of one table: a row of
minimal distance (the first such row). -/
def nearestIn (lat lon : ℚ) : List AddrRow → Option AddrRow
  | [] => none
  | r :: rs =>
    some (rs.foldl (fun best x => if dist2 lat lon x < dist2 lat lon best then x else best) r)

/-- Model of `find_nearest_address` (`address_finder.py` lines 100-124): `none`
when the table file is missing or holds no rows. -/
def find_nearest_address (fs : FS) (db_path : String) (lat lon : ℚ) : Option AddrRow :=
  match fs.dbAt db_path with
  | none => none
  | some rows => nearestIn lat lon rows

/-! ## Supporting lemmas for the nearest-address query -/

theorem foldl_nearest_spec (lat lon : ℚ) (rs : List AddrRow) :
    ∀ r : AddrRow,
      (rs.foldl (fun best x => if dist2 lat lon x < dist2 lat lon best then x else best) r)
        ∈ r :: rs ∧
      ∀ x ∈ r :: rs,
        dist2 lat lon
          (rs.foldl (fun best x => if dist2 lat lon x < dist2 lat lon best then x else best) r) ≤
        dist2 lat lon x := by
  induction rs with
  | nil => intro r; simp
  | cons z zs ih =>
    intro r
    simp only [List.foldl_cons]
    by_cases hc : dist2 lat lon z < dist2 lat lon r
    · rw [if_pos hc]
      obtain ⟨hmem, hle⟩ := ih z
      refine ⟨?_, ?_⟩
      · rcases List.mem_cons.mp hmem with h | h
        · exact List.mem_cons_of_mem _ (List.mem_cons.mpr (Or.inl h))
        · exact List.mem_cons_of_mem _ (List.mem_cons_of_mem _ h)
      · intro x hx
        rcases List.mem_cons.mp hx with h | h
        · subst h
          exact le_trans (hle z (List.mem_cons_self _ _)) (le_of_lt hc)
        · exact hle x h
    · rw [if_neg hc]
      obtain ⟨hmem, hle⟩ := ih r
      refine ⟨?_, ?_⟩
      · rcases List.mem_cons.mp hmem with h | h
        · exact List.mem_cons.mpr (Or.inl h)
        · exact List.mem_cons_of_mem _ (List.mem_cons_of_mem _ h)
      · intro x hx
        rcases List.mem_cons.mp hx with h | h
        · subst h
          exact hle x (List.mem_cons_self _ _)
        · rcases List.mem_cons.mp h with h2 | h2
          · subst h2
            exact le_trans (hle r (List.mem_cons_self _ _)) (not_lt.mp hc)
          · exact hle x (List.mem_cons_of_mem _ h2)

theorem nearestIn_spec (lat lon : ℚ) (rows : List AddrRow) (hne : rows ≠ []) :
    ∃ r, nearestIn lat lon rows = some r ∧ r ∈ rows ∧
      ∀ x ∈ rows, dist2 lat lon r ≤ dist2 lat lon x := by
  cases rows with
  | nil => exact absurd rfl hne
  | cons r0 rs =>
    obtain ⟨hmem, hle⟩ := foldl_nearest_spec lat lon rs r0
    exact ⟨_, rfl, hmem, hle⟩

/-! ## Claim theorems -/

/-- C4: given a locality address table containing at least one row and a
query point `(lat, lon)`, `find_nearest_address` returns a row of that
table whose squared planar Euclidean distance
`(lat - lat_i)^2 + (lon - lon_i)^2` to the query point is minimal over
all rows in the table (no geographic correction applied). -/
theorem C4_find_nearest_address_minimal (fs : FS) (p : String) (rows : List AddrRow)
    (lat lon : ℚ) (hdb : fs.dbAt p = some rows) (hne : rows ≠ []) :
    ∃ r, find_nearest_address fs p lat lon = some r ∧ r ∈ rows ∧
      ∀ x ∈ rows, dist2 lat lon r ≤ dist2 lat lon x := by
  unfold find_nearest_address
  rw [hdb]
  exact nearestIn_spec lat lon rows hne

/-- Witness for C4 at a concrete two-row table. -/
theorem C4_find_nearest_address_minimal_witness :
    ∃ r, find_nearest_address
        { emptyFS with localityDbs := [("p", [⟨"a", "1", 0, 0⟩, ⟨"b", "2", 5, 5⟩])] }
        "p" 4 4 = some r ∧
      r ∈ [AddrRow.mk "a" "1" 0 0, AddrRow.mk "b" "2" 5 5] ∧
      ∀ x ∈ [AddrRow.mk "a" "1" 0 0, AddrRow.mk "b" "2" 5 5],
        dist2 4 4 r ≤ dist2 4 4 x :=
  C4_find_nearest_address_minimal _ "p" _ 4 4 (by decide) (by decide)

/-- C6: for every address record with node-reference list `refs`, given
the resolved-node mapping: if no element of `refs` has a resolved
coordinate, no row is produced for that address; otherwise exactly one
row is produced whose latitude is the arithmetic mean of the latitudes of
the resolved references and whose longitude is the arithmetic mean of
their longitudes.  (`process_addresses_to_db` inserts exactly the rows
`entry.2.filterMap (aggregate nd)`.) -/
theorem C6_aggregate_mean (nd : List (Nat × (ℚ × ℚ))) (a : AddrIn) :
    ((∀ ref ∈ a.node_refs, alookup nd ref = none) → aggregate nd a = none) ∧
    ((∃ ref ∈ a.node_refs, (alookup nd ref).isSome) →
      aggregate nd a = some
        { street := a.street, housenumber := a.housenumber,
          latitude := ((a.node_refs.filterMap (alookup nd)).map Prod.fst).sum /
            (a.node_refs.filterMap (alookup nd)).length,
          longitude := ((a.node_refs.filterMap (alookup nd)).map Prod.snd).sum /
            (a.node_refs.filterMap (alookup nd)).length }) := by
  constructor
  · intro hnone
    have hnil : a.node_refs.filterMap (alookup nd) = [] := by
      rw [List.filterMap_eq_nil_iff]
      exact hnone
    simp only [aggregate, hnil]
  · intro hsome
    obtain ⟨ref, hmem, hs⟩ := hsome
    obtain ⟨c, hc⟩ := Option.isSome_iff_exists.mp hs
    have hcmem : c ∈ a.node_refs.filterMap (alookup nd) :=
      List.mem_filterMap.mpr ⟨ref, hmem, hc⟩
    cases hv : a.node_refs.filterMap (alookup nd) with
    | nil =>
      rw [hv] at hcmem
      simp at hcmem
    | cons x xs => simp only [aggregate, hv]

/-- C9: if the forward-geocode input string does not split on commas into
exactly four fields, `parse_address` exits fatally (`none`) and
`get_coordinates` terminates with the fatal outcome for every filesystem
state, consulting no inventory; if it does split into exactly four
fields, `parse_address` returns the four fields whitespace-stripped with
the country field lowercased. -/
theorem C9_parse_address (s : String) (l0 l1 l2 l3 : List Char) :
    ((splitOnComma s.data).length ≠ 4 →
      parse_address s = none ∧ ∀ fs : FS, get_coordinates fs s = FwdOutcome.fatal) ∧
    (splitOnComma s.data = [l0, l1, l2, l3] →
      parse_address s = some (pyLowerStr (String.mk (pyStripChars l0)),
        String.mk (pyStripChars l1), String.mk (pyStripChars l2),
        String.mk (pyStripChars l3))) := by
  constructor
  · intro h4
    have hp : parse_address s = none := by
      unfold parse_address
      split
      · rename_i c l st hn heq
        exfalso
        apply h4
        have hlen := congrArg List.length heq
        simpa using hlen
      · rfl
    refine ⟨hp, fun fs => ?_⟩
    unfold get_coordinates
    rw [hp]
  · intro hsp
    unfold parse_address
    rw [hsp]
    rfl

/-- Witness for C9: a one-field input is fatal on any filesystem; a clean
four-field input parses to the stripped fields with lowercased country. -/
theorem C9_parse_address_witness :
    (parse_address "x" = none ∧ get_coordinates emptyFS "x" = FwdOutcome.fatal) ∧
    parse_address "PL, Wola, Main, 5" = some ("pl", "Wola", "Main", "5") := by
  constructor
  · have h := (C9_parse_address "x" [] [] [] []).1 (by decide)
    exact ⟨h.1, h.2 emptyFS⟩
  · have h := (C9_parse_address "PL, Wola, Main, 5"
      "PL".data " Wola".data " Main".data " 5".data).2 (by decide)
    rw [h]
    decide

/-- C7: for every locality display name, the slug function returns a
non-empty string; when the transliterate-and-filter result is non-empty
it equals the string obtained by lowercasing, replacing the diacritics
`ą ć ę ł ó ś ź ż` by base Latin letters, replacing spaces by underscores
and dropping every remaining character outside `[a-z_]`; when the input
is empty or the filtered result is empty, the timestamped placeholder
`noname_<timestamp>` is returned instead. -/
theorem C7_slug_function (dt s : String) :
    convert_polish_locality_name_to_restricted_in_filesystem dt s ≠ "" ∧
    (slugSpecTransform s ≠ "" →
      convert_polish_locality_name_to_restricted_in_filesystem dt s = slugSpecTransform s) ∧
    (s = "" ∨ slugSpecTransform s = "" →
      convert_polish_locality_name_to_restricted_in_filesystem dt s = "noname_" ++ dt) :=
  ⟨conv_ne_empty dt s, conv_eq_spec dt s, conv_degenerate dt s⟩

/-- Witness for C7 on a diacritic name and on an entirely-invalid name. -/
theorem C7_slug_function_witness :
    convert_polish_locality_name_to_restricted_in_filesystem "20250101" "Łódź" ≠ "" ∧
    convert_polish_locality_name_to_restricted_in_filesystem "20250101" "Łódź" =
      slugSpecTransform "Łódź" ∧
    convert_polish_locality_name_to_restricted_in_filesystem "20250101" "@@@" =
      "noname_" ++ "20250101" :=
  ⟨(C7_slug_function "20250101" "Łódź").1,
   (C7_slug_function "20250101" "Łódź").2.1 (by decide),
   (C7_slug_function "20250101" "@@@").2.2 (Or.inr (by decide))⟩

/-- C8 counterexample: the slug function embeds the invocation timestamp
in its fallback, so two invocations on the empty locality name at
different timestamps return different results — it is not a pure function
of the locality name alone. -/
theorem C8_counterexample_timestamp :
    convert_polish_locality_name_to_restricted_in_filesystem "a" "" ≠
      convert_polish_locality_name_to_restricted_in_filesystem "b" "" := by
  decide

/-- C8 (amended): on every locality name whose transliterate-and-filter
result is non-empty, the slug function is a deterministic function of the
name: two invocations (with any two timestamps) return the same result.
For empty or entirely-invalid names the result embeds the timestamp. -/
theorem C8_deterministic_on_valid_names (dt1 dt2 s : String)
    (h : slugSpecTransform s ≠ "") :
    convert_polish_locality_name_to_restricted_in_filesystem dt1 s =
      convert_polish_locality_name_to_restricted_in_filesystem dt2 s :=
  (conv_eq_spec dt1 s h).trans (conv_eq_spec dt2 s h).symm

/-- Witness for the amended C8. -/
theorem C8_deterministic_on_valid_names_witness :
    convert_polish_locality_name_to_restricted_in_filesystem "a" "Łódź" =
      convert_polish_locality_name_to_restricted_in_filesystem "b" "Łódź" :=
  C8_deterministic_on_valid_names "a" "b" "Łódź" (by decide)

/-- The ingestion run used for the C10 collision exhibit: one run over
two distinct locality names that slug to the same filename. -/
def c10Run : FS :=
  runIngestion "pl" "maz" "t"
    [("Łódź", [⟨"S", "1", [1]⟩]), ("lodz", [⟨"T", "2", [2]⟩])]
    [(1, (1, 2)), (2, (3, 4))] emptyFS

/-- C10: the slug function is not injective — the distinct locality names
`Łódź` and `lodz` map to the same filesystem identifier, so
`process_addresses_to_db` writes both localities' addresses into the same
locality table file and `create_inventory_db` writes two region-inventory
rows pointing at the same `db_path`. -/
theorem C10_slug_collision :
    ("Łódź" : String) ≠ "lodz" ∧
    convert_polish_locality_name_to_restricted_in_filesystem "t" "Łódź" =
      convert_polish_locality_name_to_restricted_in_filesystem "t" "lodz" ∧
    dbPathOf "pl" "maz" "t" "Łódź" = dbPathOf "pl" "maz" "t" "lodz" ∧
    c10Run.dbAt (dbPathOf "pl" "maz" "t" "Łódź") =
      some [⟨"S", "1", 1, 2⟩, ⟨"T", "2", 3, 4⟩] ∧
    (alookup c10Run.regionInvs (regionDirOf "pl" "maz")).getD [] =
      [⟨"Łódź", "results/pl/maz/localities/lodz.sqlite", 1, 3, 2, 4⟩,
       ⟨"lodz", "results/pl/maz/localities/lodz.sqlite", 1, 3, 2, 4⟩] := by
  refine ⟨by decide, by decide, by decide, ?_, ?_⟩
  · norm_num +decide [c10Run, runIngestion, process_addresses_to_db, create_inventory_db,
      invRowFor, update_country_inventory, update_global_inventory, FS.dbAt, FS.setDb,
      alookup, aupdate, aggregate, envelope, qmin, qmax, locBounds, regBounds, emptyFS,
      List.filterMap_cons, min_def, max_def]
  · norm_num +decide [c10Run, runIngestion, process_addresses_to_db, create_inventory_db,
      invRowFor, update_country_inventory, update_global_inventory, FS.dbAt, FS.setDb,
      alookup, aupdate, aggregate, envelope, qmin, qmax, locBounds, regBounds, emptyFS,
      List.filterMap_cons, min_def, max_def]

/-- Witness for C6: an address whose only reference is unresolvable
produces no row; one with two resolvable references produces the mean
row. -/
theorem C6_aggregate_mean_witness :
    aggregate [(1, (10, 20))] ⟨"s", "1", [2]⟩ = none ∧
    aggregate [(1, (10, 20)), (2, (30, 40))] ⟨"s", "1", [1, 2]⟩ =
      some ⟨"s", "1", 20, 30⟩ := by
  constructor
  · exact (C6_aggregate_mean [(1, (10, 20))] ⟨"s", "1", [2]⟩).1 (by decide)
  · have h := (C6_aggregate_mean [(1, (10, 20)), (2, (30, 40))] ⟨"s", "1", [1, 2]⟩).2
      ⟨1, by decide, by decide⟩
    rw [h]
    norm_num [alookup, List.filterMap_cons]

/-- Modelled from the spec (claim C5 wording): forward resolution finds
the country row by case-insensitive name comparison, takes the first
region — scanned in inventory order — whose inventory contains a locality
row whose name equals the query locality case-sensitively, and returns the
stored coordinate of the row of that locality's table matching `(street,
housenumber)` exactly. -/
def forwardSpecResolve (fs : FS) (country locality street housenumber : String) :
    Option (ℚ × ℚ) :=
  (fs.globalInv.find? (fun r => sqliteLowerStr r.country_name == country)).bind (fun cr =>
    (alookup fs.countryInvs cr.country_dir).bind (fun regions =>
      (regions.find? (fun rg =>
          ((alookup fs.regionInvs rg.region_dir).getD []).any
            (fun lr => lr.locality_name == locality))).bind (fun rg =>
        (((alookup fs.regionInvs rg.region_dir).getD []).find?
            (fun lr => lr.locality_name == locality)).bind (fun lr =>
          (fs.dbAt lr.db_path).bind (fun rows =>
            (rows.find? (fun r => r.street == street && r.housenumber == housenumber)).map
              (fun r => (r.latitude, r.longitude)))))))

theorem scanRegions_eq (fs : FS) (locality : String) (regions : List RegionRow) :
    scanRegions fs locality regions =
      (regions.find? (fun rg =>
          ((alookup fs.regionInvs rg.region_dir).getD []).any
            (fun lr => lr.locality_name == locality))).bind
        (fun rg => (((alookup fs.regionInvs rg.region_dir).getD []).find?
            (fun lr => lr.locality_name == locality)).map LocRow.db_path) := by
  induction regions with
  | nil => rfl
  | cons rg rest ih =>
    cases ha : alookup fs.regionInvs rg.region_dir with
    | none =>
      simp only [scanRegions, ha, List.find?_cons, Option.getD_none, List.any_nil]
      rw [ih]
    | some rows =>
      cases hf : rows.find? (fun lr => lr.locality_name == locality) with
      | none =>
        have hany : rows.any (fun lr => lr.locality_name == locality) = false := by
          rw [List.any_eq_false]
          intro lr hlr
          have := List.find?_eq_none.mp hf lr hlr
          simpa using this
        simp only [scanRegions, ha, hf, List.find?_cons, Option.getD_some, hany]
        rw [ih]
      | some lr =>
        have hany : rows.any (fun lr => lr.locality_name == locality) = true := by
          rw [List.any_eq_true]
          have hp := List.find?_some hf
          exact ⟨lr, List.mem_of_find?_eq_some hf, hp⟩
        simp only [scanRegions, ha, hf, List.find?_cons, Option.getD_some, hany]
        simp [ha, hf]

/-- C5: forward resolution matches the country by exact case-insensitive
comparison of the query country name against global-inventory country
names, then scans the matched country's regions in inventory order,
stopping at the first region whose inventory contains a locality row
whose name equals the query locality case-sensitively, and finally
returns the stored coordinate of the row in that locality's table
matching `(street, housenumber)` exactly: the code's resolution chain
equals the spec-described resolver on every filesystem state and query.
-/
theorem C5_forward_resolution_algorithm (fs : FS)
    (country locality street housenumber : String) :
    fwdResolve fs country locality street housenumber =
      forwardSpecResolve fs country locality street housenumber := by
  unfold fwdResolve forwardSpecResolve find_country_dir find_locality_db
  cases hc : fs.globalInv.find? (fun r => sqliteLowerStr r.country_name == country) with
  | none => rfl
  | some cr =>
    simp only [Option.map_some', Option.some_bind]
    cases hr : alookup fs.countryInvs cr.country_dir with
    | none => rfl
    | some regions =>
      simp only [Option.some_bind]
      rw [scanRegions_eq fs locality regions]
      cases hfind : regions.find? (fun rg =>
          ((alookup fs.regionInvs rg.region_dir).getD []).any
            (fun lr => lr.locality_name == locality)) with
      | none => rfl
      | some rg =>
        simp only [Option.some_bind]
        cases hlr : ((alookup fs.regionInvs rg.region_dir).getD []).find?
            (fun lr => lr.locality_name == locality) with
        | none => rfl
        | some lr =>
          simp only [Option.map_some', Option.some_bind]
          unfold find_coordinates
          cases fs.dbAt lr.db_path <;> rfl

/-! ## Characterizing one ingestion run -/

/-- The table paths a run writes: one per locality in dict order. -/
def pathsOf (country region dt : String) (addresses : List (String × List AddrIn)) :
    List String :=
  addresses.map (fun e => dbPathOf country region dt e.1)

/-- All rows the run inserts into the table at path `p`, in insertion
order (several localities may slug to the same path). -/
def rowsFor (nd : List (Nat × (ℚ × ℚ))) (country region dt p : String)
    (addresses : List (String × List AddrIn)) : List AddrRow :=
  addresses.flatMap (fun e =>
    if dbPathOf country region dt e.1 = p then e.2.filterMap (aggregate nd) else [])

/-- All address rows stored in all locality tables of a state. -/
def allAddressRows (fs : FS) : List AddrRow := fs.localityDbs.flatMap Prod.snd

theorem dbAt_setDb (fs : FS) (p q : String) (t : List AddrRow) :
    (fs.setDb p t).dbAt q = if q = p then some t else fs.dbAt q :=
  alookup_aupdate fs.localityDbs p q t

theorem rowsFor_eq_nil_of_not_mem (nd : List (Nat × (ℚ × ℚ)))
    (country region dt p : String) (addresses : List (String × List AddrIn))
    (h : p ∉ pathsOf country region dt addresses) :
    rowsFor nd country region dt p addresses = [] := by
  induction addresses with
  | nil => rfl
  | cons e rest ih =>
    unfold rowsFor
    rw [List.flatMap_cons]
    have hne : dbPathOf country region dt e.1 ≠ p := by
      intro hp
      exact h (by simp [pathsOf, hp])
    rw [if_neg hne, List.nil_append]
    exact ih (fun hm => h (by simp [pathsOf] at hm ⊢; exact Or.inr hm))

/-- The fold of `process_addresses_to_db` leaves every inventory component unchanged.
-/
theorem process_frame (nd : List (Nat × (ℚ × ℚ))) (country region dt : String)
    (addresses : List (String × List AddrIn)) : ∀ fs : FS,
    (process_addresses_to_db nd country region dt addresses fs).regionInvs = fs.regionInvs ∧
    (process_addresses_to_db nd country region dt addresses fs).countryInvs = fs.countryInvs ∧
    (process_addresses_to_db nd country region dt addresses fs).globalInv = fs.globalInv := by
  induction addresses with
  | nil => intro fs; exact ⟨rfl, rfl, rfl⟩
  | cons e rest ih =>
    intro fs
    have hstep : process_addresses_to_db nd country region dt (e :: rest) fs =
        process_addresses_to_db nd country region dt rest
          (fs.setDb (dbPathOf country region dt e.1)
            (((fs.dbAt (dbPathOf country region dt e.1)).getD []) ++
              e.2.filterMap (aggregate nd))) := rfl
    rw [hstep]
    exact ih _

/-- The fold of `process_addresses_to_db` keeps the table paths pairwise distinct. -/
theorem process_keysNodup (nd : List (Nat × (ℚ × ℚ))) (country region dt : String)
    (addresses : List (String × List AddrIn)) : ∀ fs : FS,
    keysNodup fs.localityDbs →
    keysNodup (process_addresses_to_db nd country region dt addresses fs).localityDbs := by
  induction addresses with
  | nil => intro fs h; exact h
  | cons e rest ih =>
    intro fs h
    exact ih _ (keysNodup_aupdate _ _ h)

/-- What `process_addresses_to_db` leaves at each table path: the rows
already in the file followed by the rows inserted for the localities that
slug to that path, in dict order. -/
theorem process_dbAt (nd : List (Nat × (ℚ × ℚ))) (country region dt : String)
    (addresses : List (String × List AddrIn)) : ∀ (fs : FS) (p : String),
    (process_addresses_to_db nd country region dt addresses fs).dbAt p =
      if p ∈ pathsOf country region dt addresses
      then some (((fs.dbAt p).getD []) ++ rowsFor nd country region dt p addresses)
      else fs.dbAt p := by
  induction addresses with
  | nil =>
    intro fs p
    simp [process_addresses_to_db, pathsOf, rowsFor]
  | cons e rest ih =>
    intro fs p
    have hstep : process_addresses_to_db nd country region dt (e :: rest) fs =
        process_addresses_to_db nd country region dt rest
          (fs.setDb (dbPathOf country region dt e.1)
            (((fs.dbAt (dbPathOf country region dt e.1)).getD []) ++
              e.2.filterMap (aggregate nd))) := rfl
    rw [hstep, ih]
    have hpaths : pathsOf country region dt (e :: rest) =
        dbPathOf country region dt e.1 :: pathsOf country region dt rest := rfl
    have hrows : rowsFor nd country region dt p (e :: rest) =
        (if dbPathOf country region dt e.1 = p then e.2.filterMap (aggregate nd) else []) ++
          rowsFor nd country region dt p rest := by
      unfold rowsFor
      rw [List.flatMap_cons]
    by_cases hq : p = dbPathOf country region dt e.1
    · by_cases hrest : p ∈ pathsOf country region dt rest
      · rw [if_pos hrest, dbAt_setDb, if_pos hq, hpaths, hrows]
        rw [if_pos (by rw [hq]; exact List.mem_cons_self _ _)]
        rw [if_pos hq.symm]
        rw [Option.getD_some, ← hq, List.append_assoc]
      · rw [if_neg hrest, dbAt_setDb, if_pos hq, hpaths, hrows]
        rw [if_pos (by rw [hq]; exact List.mem_cons_self _ _)]
        rw [if_pos hq.symm]
        rw [rowsFor_eq_nil_of_not_mem nd country region dt p rest hrest, ← hq,
          List.append_nil]
    · have hmem : (p ∈ pathsOf country region dt (e :: rest)) =
          (p ∈ pathsOf country region dt rest) := by
        rw [hpaths]
        simp only [List.mem_cons, eq_iff_iff]
        constructor
        · intro hh
          rcases hh with hh | hh
          · exact absurd hh hq
          · exact hh
        · exact Or.inr
      by_cases hrest : p ∈ pathsOf country region dt rest
      · rw [if_pos hrest, dbAt_setDb, if_neg hq, hpaths, hrows]
        rw [if_pos (by simp only [List.mem_cons]; exact Or.inr hrest)]
        rw [if_neg (fun hh => hq hh.symm), List.nil_append]
      · rw [if_neg hrest, dbAt_setDb, if_neg hq]
        rw [if_neg (by rw [hmem]; exact hrest)]

theorem envelope_some_parts {t : List AddrRow} {b : BBox} (h : envelope t = some b) :
    qmin (t.map AddrRow.latitude) = some b.min_lat ∧
    qmax (t.map AddrRow.latitude) = some b.max_lat ∧
    qmin (t.map AddrRow.longitude) = some b.min_lon ∧
    qmax (t.map AddrRow.longitude) = some b.max_lon := by
  unfold envelope at h
  split at h
  · rename_i a bm c d ha hb hc hd
    cases h
    exact ⟨ha, hb, hc, hd⟩
  · cases h

theorem envelope_ne_nil {t : List AddrRow} {b : BBox} (h : envelope t = some b) :
    t ≠ [] := by
  intro he
  subst he
  cases h

theorem envelope_isSome {t : List AddrRow} (h : t ≠ []) : (envelope t).isSome := by
  have hm : t.map AddrRow.latitude ≠ [] := by
    intro hh
    exact h (List.map_eq_nil_iff.mp hh)
  have hm2 : t.map AddrRow.longitude ≠ [] := by
    intro hh
    exact h (List.map_eq_nil_iff.mp hh)
  obtain ⟨a, ha⟩ := Option.isSome_iff_exists.mp (qmin_isSome hm)
  obtain ⟨b, hb⟩ := Option.isSome_iff_exists.mp (qmax_isSome hm)
  obtain ⟨c, hc⟩ := Option.isSome_iff_exists.mp (qmin_isSome hm2)
  obtain ⟨d, hd⟩ := Option.isSome_iff_exists.mp (qmax_isSome hm2)
  unfold envelope
  rw [ha, hb, hc, hd]
  rfl

/-- The region inventory after `create_inventory_db`: the pre-existing
rows followed by the rows generated in dict order. -/
theorem create_regionInv (country region dt : String)
    (addresses : List (String × List AddrIn)) (fs : FS) :
    alookup (create_inventory_db country region dt addresses fs).regionInvs
        (regionDirOf country region) =
      some (((alookup fs.regionInvs (regionDirOf country region)).getD []) ++
        addresses.filterMap (invRowFor country region dt fs)) := by
  unfold create_inventory_db
  rw [alookup_aupdate]
  rw [if_pos rfl]

/-- The write of `create_inventory_db` touches nothing but the region inventories. -/
theorem create_frame (country region dt : String)
    (addresses : List (String × List AddrIn)) (fs : FS) :
    (create_inventory_db country region dt addresses fs).localityDbs = fs.localityDbs ∧
    (create_inventory_db country region dt addresses fs).countryInvs = fs.countryInvs ∧
    (create_inventory_db country region dt addresses fs).globalInv = fs.globalInv :=
  ⟨rfl, rfl, rfl⟩

/-- Every generated inventory row records the exact `MIN`/`MAX` envelope
of the (non-empty) table its `db_path` points at. -/
theorem invRow_envelope (country region dt : String) (fs : FS)
    (addresses : List (String × List AddrIn)) {lr : LocRow}
    (h : lr ∈ addresses.filterMap (invRowFor country region dt fs)) :
    ∃ t, fs.dbAt lr.db_path = some t ∧ t ≠ [] ∧
      envelope t = some ⟨lr.min_lat, lr.max_lat, lr.min_lon, lr.max_lon⟩ := by
  obtain ⟨e, _, he⟩ := List.mem_filterMap.mp h
  simp only [invRowFor] at he
  split at he
  · cases he
  · rename_i t hdb
    split at he
    · cases he
    · rename_i b henv
      cases he
      exact ⟨t, hdb, envelope_ne_nil henv, by rw [henv]⟩

/-- Conversely, every non-empty table of the post-`process` state is
pointed at by at least one generated inventory row.  Needs the state to
be exactly the one `process_addresses_to_db` built from the empty state.
-/
theorem table_has_invRow (nd : List (Nat × (ℚ × ℚ))) (country region dt : String)
    (addresses : List (String × List AddrIn)) {p : String} {t : List AddrRow}
    (hdb : (process_addresses_to_db nd country region dt addresses emptyFS).dbAt p = some t)
    (hne : t ≠ []) :
    ∃ lr ∈ addresses.filterMap
        (invRowFor country region dt
          (process_addresses_to_db nd country region dt addresses emptyFS)),
      lr.db_path = p ∧
      envelope t = some ⟨lr.min_lat, lr.max_lat, lr.min_lon, lr.max_lon⟩ := by
  have hchar := process_dbAt nd country region dt addresses emptyFS p
  rw [hdb] at hchar
  by_cases hmem : p ∈ pathsOf country region dt addresses
  · rw [if_pos hmem] at hchar
    obtain ⟨e, hemem, hep⟩ := List.mem_map.mp hmem
    obtain ⟨b, hb⟩ := Option.isSome_iff_exists.mp (envelope_isSome hne)
    have hrow : invRowFor country region dt
        (process_addresses_to_db nd country region dt addresses emptyFS) e =
        some { locality_name := e.1, db_path := dbPathOf country region dt e.1,
               min_lat := b.min_lat, max_lat := b.max_lat,
               min_lon := b.min_lon, max_lon := b.max_lon } := by
      simp only [invRowFor, hep, hdb, hb]
    refine ⟨_, List.mem_filterMap.mpr ⟨e, hemem, hrow⟩, hep, ?_⟩
    rw [hb]
  · rw [if_neg hmem] at hchar
    cases hchar

/-- The aggregate `MIN(min_lat), MAX(max_lat), MIN(min_lon), MAX(max_lon)`
over the freshly generated region inventory equals the envelope of all
address rows stored in all tables of the post-`process` state. -/
theorem locBounds_eq_envelope (nd : List (Nat × (ℚ × ℚ))) (country region dt : String)
    (addresses : List (String × List AddrIn)) :
    locBounds (addresses.filterMap
        (invRowFor country region dt
          (process_addresses_to_db nd country region dt addresses emptyFS))) =
      envelope (allAddressRows (process_addresses_to_db nd country region dt addresses emptyFS)) := by
  set P := process_addresses_to_db nd country region dt addresses emptyFS with hP
  set invRows := addresses.filterMap (invRowFor country region dt P) with hinv
  have hNodup : keysNodup P.localityDbs :=
    process_keysNodup nd country region dt addresses emptyFS (by simp [emptyFS, keysNodup])
  -- membership bridges between row lists and the flattened address rows
  have hAmem : ∀ {q : String} {t : List AddrRow} {rr : AddrRow},
      P.dbAt q = some t → rr ∈ t → rr ∈ allAddressRows P := by
    intro q t rr hq hrr
    exact List.mem_flatMap.mpr ⟨(q, t), mem_of_alookup_eq_some hq, hrr⟩
  have hBmem : ∀ {rr : AddrRow}, rr ∈ allAddressRows P →
      ∃ q t, P.dbAt q = some t ∧ rr ∈ t := by
    intro rr hrr
    obtain ⟨⟨q, t⟩, hqt, hmem⟩ := List.mem_flatMap.mp hrr
    exact ⟨q, t, alookup_eq_some_of_mem hNodup hqt, hmem⟩
  -- the four components agree
  have hminlat : qmin (invRows.map LocRow.min_lat) =
      qmin ((allAddressRows P).map AddrRow.latitude) := by
    apply qmin_congr
    · intro x hx
      obtain ⟨lr, hlr, hlx⟩ := List.mem_map.mp hx
      obtain ⟨t, hdb, hne, henv⟩ := invRow_envelope country region dt P addresses hlr
      have hq := (envelope_some_parts henv).1
      have hmm := qmin_mem hq
      obtain ⟨rr, hrrt, hrrl⟩ := List.mem_map.mp hmm
      refine ⟨rr.latitude, List.mem_map_of_mem _ (hAmem hdb hrrt), ?_⟩
      rw [hrrl, hlx]
    · intro y hy
      obtain ⟨rr, hrr, hry⟩ := List.mem_map.mp hy
      obtain ⟨q, t, hdb, hrrt⟩ := hBmem hrr
      have hne : t ≠ [] := fun hh => by rw [hh] at hrrt; cases hrrt
      obtain ⟨lr, hlr, _, henv⟩ := table_has_invRow nd country region dt addresses hdb hne
      have hq := (envelope_some_parts henv).1
      refine ⟨lr.min_lat, List.mem_map_of_mem _ hlr, ?_⟩
      rw [← hry]
      exact qmin_le hq rr.latitude (List.mem_map_of_mem _ hrrt)
  have hmaxlat : qmax (invRows.map LocRow.max_lat) =
      qmax ((allAddressRows P).map AddrRow.latitude) := by
    apply qmax_congr
    · intro x hx
      obtain ⟨lr, hlr, hlx⟩ := List.mem_map.mp hx
      obtain ⟨t, hdb, hne, henv⟩ := invRow_envelope country region dt P addresses hlr
      have hq := (envelope_some_parts henv).2.1
      have hmm := qmax_mem hq
      obtain ⟨rr, hrrt, hrrl⟩ := List.mem_map.mp hmm
      refine ⟨rr.latitude, List.mem_map_of_mem _ (hAmem hdb hrrt), ?_⟩
      rw [hrrl, hlx]
    · intro y hy
      obtain ⟨rr, hrr, hry⟩ := List.mem_map.mp hy
      obtain ⟨q, t, hdb, hrrt⟩ := hBmem hrr
      have hne : t ≠ [] := fun hh => by rw [hh] at hrrt; cases hrrt
      obtain ⟨lr, hlr, _, henv⟩ := table_has_invRow nd country region dt addresses hdb hne
      have hq := (envelope_some_parts henv).2.1
      refine ⟨lr.max_lat, List.mem_map_of_mem _ hlr, ?_⟩
      rw [← hry]
      exact qmax_ge hq rr.latitude (List.mem_map_of_mem _ hrrt)
  have hminlon : qmin (invRows.map LocRow.min_lon) =
      qmin ((allAddressRows P).map AddrRow.longitude) := by
    apply qmin_congr
    · intro x hx
      obtain ⟨lr, hlr, hlx⟩ := List.mem_map.mp hx
      obtain ⟨t, hdb, hne, henv⟩ := invRow_envelope country region dt P addresses hlr
      have hq := (envelope_some_parts henv).2.2.1
      have hmm := qmin_mem hq
      obtain ⟨rr, hrrt, hrrl⟩ := List.mem_map.mp hmm
      refine ⟨rr.longitude, List.mem_map_of_mem _ (hAmem hdb hrrt), ?_⟩
      rw [hrrl, hlx]
    · intro y hy
      obtain ⟨rr, hrr, hry⟩ := List.mem_map.mp hy
      obtain ⟨q, t, hdb, hrrt⟩ := hBmem hrr
      have hne : t ≠ [] := fun hh => by rw [hh] at hrrt; cases hrrt
      obtain ⟨lr, hlr, _, henv⟩ := table_has_invRow nd country region dt addresses hdb hne
      have hq := (envelope_some_parts henv).2.2.1
      refine ⟨lr.min_lon, List.mem_map_of_mem _ hlr, ?_⟩
      rw [← hry]
      exact qmin_le hq rr.longitude (List.mem_map_of_mem _ hrrt)
  have hmaxlon : qmax (invRows.map LocRow.max_lon) =
      qmax ((allAddressRows P).map AddrRow.longitude) := by
    apply qmax_congr
    · intro x hx
      obtain ⟨lr, hlr, hlx⟩ := List.mem_map.mp hx
      obtain ⟨t, hdb, hne, henv⟩ := invRow_envelope country region dt P addresses hlr
      have hq := (envelope_some_parts henv).2.2.2
      have hmm := qmax_mem hq
      obtain ⟨rr, hrrt, hrrl⟩ := List.mem_map.mp hmm
      refine ⟨rr.longitude, List.mem_map_of_mem _ (hAmem hdb hrrt), ?_⟩
      rw [hrrl, hlx]
    · intro y hy
      obtain ⟨rr, hrr, hry⟩ := List.mem_map.mp hy
      obtain ⟨q, t, hdb, hrrt⟩ := hBmem hrr
      have hne : t ≠ [] := fun hh => by rw [hh] at hrrt; cases hrrt
      obtain ⟨lr, hlr, _, henv⟩ := table_has_invRow nd country region dt addresses hdb hne
      have hq := (envelope_some_parts henv).2.2.2
      refine ⟨lr.max_lon, List.mem_map_of_mem _ hlr, ?_⟩
      rw [← hry]
      exact qmax_ge hq rr.longitude (List.mem_map_of_mem _ hrrt)
  unfold locBounds envelope
  rw [hminlat, hmaxlat, hminlon, hmaxlon]

/-- Derived view of an inventory file: the region inventory rows a state
holds for one region directory. -/
def regionInvRows (fs : FS) (country region : String) : List LocRow :=
  (alookup fs.regionInvs (regionDirOf country region)).getD []

/-- Derived view of an inventory file: the country inventory rows a state
holds for one country directory. -/
def countryInvRows (fs : FS) (country : String) : List RegionRow :=
  (alookup fs.countryInvs (countryDirOf country)).getD []

/-- The region inventory row `update_country_inventory` writes. -/
def regionRowOf (country region : String) (b : BBox) : RegionRow :=
  { region_name := region, region_dir := regionDirOf country region,
    min_lat := b.min_lat, max_lat := b.max_lat,
    min_lon := b.min_lon, max_lon := b.max_lon }

/-- The global inventory row `update_global_inventory` writes. -/
def countryRowOf (country : String) (b : BBox) : CountryRow :=
  { country_name := country, country_dir := countryDirOf country,
    min_lat := b.min_lat, max_lat := b.max_lat,
    min_lon := b.min_lon, max_lon := b.max_lon }

/-- A fresh ingestion run reduced to its two possible final states,
according to whether the region bounds aggregate was `NULL`. -/
theorem runIngestion_cases (country region dt : String)
    (addresses : List (String × List AddrIn)) (nd : List (Nat × (ℚ × ℚ))) :
    (locBounds (addresses.filterMap
        (invRowFor country region dt
          (process_addresses_to_db nd country region dt addresses emptyFS))) = none →
      runIngestion country region dt addresses nd emptyFS =
        create_inventory_db country region dt addresses
          (process_addresses_to_db nd country region dt addresses emptyFS)) ∧
    (∀ b : BBox, locBounds (addresses.filterMap
        (invRowFor country region dt
          (process_addresses_to_db nd country region dt addresses emptyFS))) = some b →
      runIngestion country region dt addresses nd emptyFS =
        update_global_inventory country b
          (update_country_inventory country region b
            (create_inventory_db country region dt addresses
              (process_addresses_to_db nd country region dt addresses emptyFS)))) := by
  have hframe := process_frame nd country region dt addresses emptyFS
  have hreg : alookup (create_inventory_db country region dt addresses
        (process_addresses_to_db nd country region dt addresses emptyFS)).regionInvs
      (regionDirOf country region) =
      some (addresses.filterMap
        (invRowFor country region dt
          (process_addresses_to_db nd country region dt addresses emptyFS))) := by
    rw [create_regionInv, hframe.1]
    rfl
  constructor
  · intro hnone
    show (match locBounds ((alookup (create_inventory_db country region dt addresses
        (process_addresses_to_db nd country region dt addresses emptyFS)).regionInvs
        (regionDirOf country region)).getD []) with
      | none => create_inventory_db country region dt addresses
          (process_addresses_to_db nd country region dt addresses emptyFS)
      | some rb =>
        match regBounds ((alookup (update_country_inventory country region rb
            (create_inventory_db country region dt addresses
              (process_addresses_to_db nd country region dt addresses emptyFS))).countryInvs
            (countryDirOf country)).getD []) with
        | none => update_country_inventory country region rb
            (create_inventory_db country region dt addresses
              (process_addresses_to_db nd country region dt addresses emptyFS))
        | some cb => update_global_inventory country cb
            (update_country_inventory country region rb
              (create_inventory_db country region dt addresses
                (process_addresses_to_db nd country region dt addresses emptyFS)))) = _
    rw [hreg, Option.getD_some, hnone]
  · intro b hsome
    have hck : alookup (update_country_inventory country region b
          (create_inventory_db country region dt addresses
            (process_addresses_to_db nd country region dt addresses emptyFS))).countryInvs
        (countryDirOf country) = some [regionRowOf country region b] := by
      unfold update_country_inventory
      rw [alookup_aupdate, if_pos rfl]
      rw [show (create_inventory_db country region dt addresses
          (process_addresses_to_db nd country region dt addresses emptyFS)).countryInvs =
          (process_addresses_to_db nd country region dt addresses emptyFS).countryInvs
        from rfl]
      rw [hframe.2.1]
      rfl
    show (match locBounds ((alookup (create_inventory_db country region dt addresses
        (process_addresses_to_db nd country region dt addresses emptyFS)).regionInvs
        (regionDirOf country region)).getD []) with
      | none => create_inventory_db country region dt addresses
          (process_addresses_to_db nd country region dt addresses emptyFS)
      | some rb =>
        match regBounds ((alookup (update_country_inventory country region rb
            (create_inventory_db country region dt addresses
              (process_addresses_to_db nd country region dt addresses emptyFS))).countryInvs
            (countryDirOf country)).getD []) with
        | none => update_country_inventory country region rb
            (create_inventory_db country region dt addresses
              (process_addresses_to_db nd country region dt addresses emptyFS))
        | some cb => update_global_inventory country cb
            (update_country_inventory country region rb
              (create_inventory_db country region dt addresses
                (process_addresses_to_db nd country region dt addresses emptyFS)))) = _
    rw [hreg, Option.getD_some, hsome]
    show (match regBounds ((alookup (update_country_inventory country region b
        (create_inventory_db country region dt addresses
          (process_addresses_to_db nd country region dt addresses emptyFS))).countryInvs
        (countryDirOf country)).getD []) with
      | none => update_country_inventory country region b
          (create_inventory_db country region dt addresses
            (process_addresses_to_db nd country region dt addresses emptyFS))
      | some cb => update_global_inventory country cb
          (update_country_inventory country region b
            (create_inventory_db country region dt addresses
              (process_addresses_to_db nd country region dt addresses emptyFS)))) = _
    rw [hck, Option.getD_some]
    rfl

/-- C1: for every inventory row written at any level by a fresh ingestion
run — region inventory row per locality, country inventory row per
region, global inventory row per country — its `(min_lat, max_lat,
min_lon, max_lon)` equals the element-wise `MIN`/`MAX` envelope of all
address coordinates stored beneath that row's subtree (for a locality row
the table its `db_path` points at; for the single region and country rows
of this run, all address rows the run wrote); and no inventory row is
written for a subtree that produced no valid bounding box — empty
subtrees are omitted rather than recorded with null bounds. -/
theorem C1_inventory_envelopes (country region dt : String)
    (addresses : List (String × List AddrIn)) (nd : List (Nat × (ℚ × ℚ)))
    (run : FS) (hrun : run = runIngestion country region dt addresses nd emptyFS) :
    (∀ lr ∈ regionInvRows run country region,
      ∃ t, run.dbAt lr.db_path = some t ∧ t ≠ [] ∧
        envelope t = some ⟨lr.min_lat, lr.max_lat, lr.min_lon, lr.max_lon⟩) ∧
    (∀ rr ∈ countryInvRows run country,
      envelope (allAddressRows run) = some ⟨rr.min_lat, rr.max_lat, rr.min_lon, rr.max_lon⟩) ∧
    (∀ cr ∈ run.globalInv,
      envelope (allAddressRows run) = some ⟨cr.min_lat, cr.max_lat, cr.min_lon, cr.max_lon⟩) ∧
    (allAddressRows run = [] →
      regionInvRows run country region = [] ∧ countryInvRows run country = [] ∧
      run.globalInv = []) := by
  subst hrun
  have hM := locBounds_eq_envelope nd country region dt addresses
  obtain ⟨hcaseN, hcaseS⟩ := runIngestion_cases country region dt addresses nd
  have hframe := process_frame nd country region dt addresses emptyFS
  set P := process_addresses_to_db nd country region dt addresses emptyFS with hP
  set invRows := addresses.filterMap (invRowFor country region dt P) with hIR
  have hreg2 : alookup (create_inventory_db country region dt addresses P).regionInvs
      (regionDirOf country region) = some invRows := by
    rw [create_regionInv, hframe.1]
    rfl
  have hInvNil : allAddressRows P = [] → invRows = [] := by
    intro hempty
    rw [List.eq_nil_iff_forall_not_mem]
    intro lr hlr
    obtain ⟨t, hdb, hne, _⟩ := invRow_envelope country region dt P addresses hlr
    obtain ⟨x, hx⟩ := List.exists_mem_of_ne_nil t hne
    have hxall : x ∈ allAddressRows P :=
      List.mem_flatMap.mpr ⟨(lr.db_path, t), mem_of_alookup_eq_some hdb, hx⟩
    rw [hempty] at hxall
    cases hxall
  cases hlb : locBounds invRows with
  | none =>
    rw [hcaseN hlb]
    have hrows : regionInvRows (create_inventory_db country region dt addresses P)
        country region = invRows := by
      unfold regionInvRows
      rw [hreg2]
      rfl
    have hcountry : countryInvRows (create_inventory_db country region dt addresses P)
        country = [] := by
      unfold countryInvRows
      rw [show (create_inventory_db country region dt addresses P).countryInvs =
          P.countryInvs from rfl, hframe.2.1]
      rfl
    have hglobal : (create_inventory_db country region dt addresses P).globalInv = [] := by
      rw [show (create_inventory_db country region dt addresses P).globalInv =
          P.globalInv from rfl, hframe.2.2]
      rfl
    refine ⟨?_, ?_, ?_, ?_⟩
    · intro lr hlr
      rw [hrows] at hlr
      obtain ⟨t, hdb, hne, henv⟩ := invRow_envelope country region dt P addresses hlr
      exact ⟨t, hdb, hne, henv⟩
    · intro rr hrr
      rw [hcountry] at hrr
      cases hrr
    · intro cr hcr
      rw [hglobal] at hcr
      cases hcr
    · intro hempty
      have hPempty : allAddressRows P = [] := hempty
      exact ⟨by rw [hrows]; exact hInvNil hPempty, hcountry, hglobal⟩
  | some b =>
    rw [hcaseS b hlb]
    have hEnv : envelope (allAddressRows P) = some b := by
      rw [← hM]
      exact hlb
    have hrows : regionInvRows (update_global_inventory country b
        (update_country_inventory country region b
          (create_inventory_db country region dt addresses P))) country region =
        invRows := by
      unfold regionInvRows
      rw [show (update_global_inventory country b
          (update_country_inventory country region b
            (create_inventory_db country region dt addresses P))).regionInvs =
          (create_inventory_db country region dt addresses P).regionInvs from rfl]
      rw [hreg2]
      rfl
    have hcountry : countryInvRows (update_global_inventory country b
        (update_country_inventory country region b
          (create_inventory_db country region dt addresses P))) country =
        [regionRowOf country region b] := by
      unfold countryInvRows
      rw [show (update_global_inventory country b
          (update_country_inventory country region b
            (create_inventory_db country region dt addresses P))).countryInvs =
          (update_country_inventory country region b
            (create_inventory_db country region dt addresses P)).countryInvs from rfl]
      unfold update_country_inventory
      rw [alookup_aupdate, if_pos rfl]
      rw [show (create_inventory_db country region dt addresses P).countryInvs =
          P.countryInvs from rfl, hframe.2.1]
      rfl
    have hglobal : (update_global_inventory country b
        (update_country_inventory country region b
          (create_inventory_db country region dt addresses P))).globalInv =
        [countryRowOf country b] := by
      show (update_country_inventory country region b
          (create_inventory_db country region dt addresses P)).globalInv ++
        [countryRowOf country b] = [countryRowOf country b]
      rw [show (update_country_inventory country region b
          (create_inventory_db country region dt addresses P)).globalInv =
          P.globalInv from rfl, hframe.2.2]
      rfl
    refine ⟨?_, ?_, ?_, ?_⟩
    · intro lr hlr
      rw [hrows] at hlr
      obtain ⟨t, hdb, hne, henv⟩ := invRow_envelope country region dt P addresses hlr
      exact ⟨t, hdb, hne, henv⟩
    · intro rr hrr
      rw [hcountry, List.mem_singleton] at hrr
      subst hrr
      exact hEnv
    · intro cr hcr
      rw [hglobal, List.mem_singleton] at hcr
      subst hcr
      exact hEnv
    · intro hempty
      have hPempty : allAddressRows P = [] := hempty
      rw [hPempty] at hEnv
      rw [show envelope [] = none from rfl] at hEnv
      cases hEnv

/-- The concrete run used by the C1 witness. -/
def c1Run : FS := runIngestion "pl" "maz" "t" [("w", [⟨"s", "1", [1]⟩])] [(1, (3, 4))] emptyFS

/-- Witness for C1 at a one-address run: the written region inventory row
carries the exact envelope of its table. -/
theorem C1_inventory_envelopes_witness :
    ∃ t, c1Run.dbAt "results/pl/maz/localities/w.sqlite" = some t ∧ t ≠ [] ∧
      envelope t = some ⟨3, 3, 4, 4⟩ := by
  have happ := (C1_inventory_envelopes "pl" "maz" "t" [("w", [⟨"s", "1", [1]⟩])]
    [(1, (3, 4))] c1Run rfl).1
  have hrows : regionInvRows c1Run "pl" "maz" =
      [⟨"w", "results/pl/maz/localities/w.sqlite", 3, 3, 4, 4⟩] := by
    norm_num +decide [c1Run, runIngestion, process_addresses_to_db, create_inventory_db,
      invRowFor, update_country_inventory, update_global_inventory, FS.dbAt, FS.setDb,
      alookup, aupdate, aggregate, envelope, qmin, qmax, locBounds, regBounds, emptyFS,
      regionInvRows, List.filterMap_cons, min_def, max_def]
  have h := happ ⟨"w", "results/pl/maz/localities/w.sqlite", 3, 3, 4, 4⟩
    (by rw [hrows]; exact List.mem_singleton.mpr rfl)
  exact h

/-- The double-ingestion state exhibiting the C2 upsert defect: the same
region extract ingested twice from a fresh state. -/
def c2Run : FS :=
  runIngestion "c" "a" "t" [("w", [⟨"s", "1", [1]⟩])] [(1, (1, 2))]
    (runIngestion "c" "a" "t" [("w", [⟨"s", "1", [1]⟩])] [(1, (1, 2))] emptyFS)

/-- C2 evaluated at the failing input: after ingesting region `a` of
country `c` twice, country `c`'s inventory holds TWO rows named `a` and
the global inventory holds TWO rows named `c`.  The `INSERT OR REPLACE`
statements of `update_country_inventory` and `update_global_inventory`
target tables declared without any uniqueness constraint, so they never
find a conflicting row and insert duplicates instead of replacing. -/
theorem C2_reingestion_duplicates_rows :
    (countryInvRows c2Run "c").map RegionRow.region_name = ["a", "a"] ∧
    c2Run.globalInv.map CountryRow.country_name = ["c", "c"] := by
  constructor <;>
    norm_num +decide [c2Run, runIngestion, process_addresses_to_db, create_inventory_db,
      invRowFor, update_country_inventory, update_global_inventory, FS.dbAt, FS.setDb,
      alookup, aupdate, aggregate, envelope, qmin, qmax, locBounds, regBounds, emptyFS,
      countryInvRows, List.filterMap_cons, min_def, max_def]

/-! ## String lemmas for the forward query format -/

theorem splitOnComma_of_no_comma (l : List Char) (h : ',' ∉ l) :
    splitOnComma l = [l] := by
  induction l with
  | nil => rfl
  | cons c rest ih =>
    have hc : ¬ c = ',' := fun hh => h (by rw [hh]; exact List.mem_cons_self _ _)
    have hrest : ',' ∉ rest := fun hh => h (List.mem_cons_of_mem _ hh)
    unfold splitOnComma
    rw [if_neg hc, ih hrest]

theorem splitOnComma_append (l1 l2 : List Char) (h : ',' ∉ l1) :
    splitOnComma (l1 ++ ',' :: l2) = l1 :: splitOnComma l2 := by
  induction l1 with
  | nil =>
    show splitOnComma (',' :: l2) = [] :: splitOnComma l2
    conv_lhs => unfold splitOnComma
    rw [if_pos rfl]
  | cons c rest ih =>
    have hc : ¬ c = ',' := fun hh => h (by rw [hh]; exact List.mem_cons_self _ _)
    have hrest : ',' ∉ rest := fun hh => h (List.mem_cons_of_mem _ hh)
    show splitOnComma (c :: (rest ++ ',' :: l2)) = (c :: rest) :: splitOnComma l2
    conv_lhs => unfold splitOnComma
    rw [if_neg hc, ih hrest]

theorem pyStripChars_space_cons (l : List Char) :
    pyStripChars (' ' :: l) = pyStripChars l := by
  unfold pyStripChars
  rw [List.dropWhile_cons]
  rw [if_pos (by decide)]

/-- Parsing the canonical comma-separated rendering of four clean fields
(no commas, no leading or trailing whitespace) recovers the fields, with
the country lowercased. -/
theorem parse_address_of_clean (country locality street housenumber : String)
    (hcC : ',' ∉ country.data) (hcL : ',' ∉ locality.data)
    (hcS : ',' ∉ street.data) (hcH : ',' ∉ housenumber.data)
    (hsC : pyStripChars country.data = country.data)
    (hsL : pyStripChars locality.data = locality.data)
    (hsS : pyStripChars street.data = street.data)
    (hsH : pyStripChars housenumber.data = housenumber.data) :
    parse_address (country ++ ", " ++ locality ++ ", " ++ street ++ ", " ++ housenumber) =
      some (pyLowerStr country, locality, street, housenumber) := by
  have hdata : (country ++ ", " ++ locality ++ ", " ++ street ++ ", " ++ housenumber).data =
      country.data ++ ',' ::
        ((' ' :: locality.data) ++ ',' ::
          ((' ' :: street.data) ++ ',' :: (' ' :: housenumber.data))) := by
    simp only [String.data_append, show (", " : String).data = [',', ' '] from rfl,
      List.append_assoc, List.cons_append, List.nil_append]
  have hL : ',' ∉ ' ' :: locality.data := by
    intro hh
    rcases List.mem_cons.mp hh with hh2 | hh2
    · cases hh2
    · exact hcL hh2
  have hS : ',' ∉ ' ' :: street.data := by
    intro hh
    rcases List.mem_cons.mp hh with hh2 | hh2
    · cases hh2
    · exact hcS hh2
  have hH : ',' ∉ ' ' :: housenumber.data := by
    intro hh
    rcases List.mem_cons.mp hh with hh2 | hh2
    · cases hh2
    · exact hcH hh2
  have hsplit : splitOnComma
      (country ++ ", " ++ locality ++ ", " ++ street ++ ", " ++ housenumber).data =
      [country.data, ' ' :: locality.data, ' ' :: street.data, ' ' :: housenumber.data] := by
    rw [hdata, splitOnComma_append _ _ hcC, splitOnComma_append _ _ hL,
      splitOnComma_append _ _ hS, splitOnComma_of_no_comma _ hH]
  unfold parse_address
  rw [hsplit]
  simp only [List.map_cons, List.map_nil, pyStripChars_space_cons, hsC, hsL, hsS, hsH]

/-! ## Locating the ingested address from the forward geocoder -/

theorem invRowFor_name {country region dt : String} {fs : FS}
    {e : String × List AddrIn} {lr : LocRow}
    (h : invRowFor country region dt fs e = some lr) :
    lr.locality_name = e.1 ∧ lr.db_path = dbPathOf country region dt e.1 := by
  simp only [invRowFor] at h
  split at h
  · cases h
  · split at h
    · cases h
    · cases h
      exact ⟨rfl, rfl⟩

theorem aggregate_fields {nd : List (Nat × (ℚ × ℚ))} {a : AddrIn} {row : AddrRow}
    (h : aggregate nd a = some row) :
    row.street = a.street ∧ row.housenumber = a.housenumber := by
  simp only [aggregate] at h
  split at h
  · cases h
  · cases h
    exact ⟨rfl, rfl⟩

theorem row_mem_rowsFor (nd : List (Nat × (ℚ × ℚ))) (country region dt locality : String)
    (addresses : List (String × List AddrIn)) (addrs : List AddrIn)
    (a : AddrIn) (row : AddrRow)
    (hmem : (locality, addrs) ∈ addresses) (ha : a ∈ addrs)
    (hagg : aggregate nd a = some row) :
    row ∈ rowsFor nd country region dt (dbPathOf country region dt locality) addresses := by
  unfold rowsFor
  apply List.mem_flatMap.mpr
  refine ⟨(locality, addrs), hmem, ?_⟩
  rw [if_pos rfl]
  exact List.mem_filterMap.mpr ⟨a, ha, hagg⟩

theorem locBounds_isSome {rows : List LocRow} (h : rows ≠ []) :
    (locBounds rows).isSome := by
  have hm1 : rows.map LocRow.min_lat ≠ [] := by
    intro hh
    exact h (List.map_eq_nil_iff.mp hh)
  have hm2 : rows.map LocRow.max_lat ≠ [] := by
    intro hh
    exact h (List.map_eq_nil_iff.mp hh)
  have hm3 : rows.map LocRow.min_lon ≠ [] := by
    intro hh
    exact h (List.map_eq_nil_iff.mp hh)
  have hm4 : rows.map LocRow.max_lon ≠ [] := by
    intro hh
    exact h (List.map_eq_nil_iff.mp hh)
  obtain ⟨a, ha⟩ := Option.isSome_iff_exists.mp (qmin_isSome hm1)
  obtain ⟨b, hb⟩ := Option.isSome_iff_exists.mp (qmax_isSome hm2)
  obtain ⟨c, hc⟩ := Option.isSome_iff_exists.mp (qmin_isSome hm3)
  obtain ⟨d, hd⟩ := Option.isSome_iff_exists.mp (qmax_isSome hm4)
  unfold locBounds
  rw [ha, hb, hc, hd]
  rfl

/-- The first region-inventory row named after a locality of the dict is
the one generated for that locality (dict keys are unique). -/
theorem find_invRow (country region dt locality : String) (fs : FS)
    (addresses : List (String × List AddrIn)) (addrs : List AddrIn) (lr : LocRow)
    (hnodup : (addresses.map Prod.fst).Nodup)
    (hmem : (locality, addrs) ∈ addresses)
    (hrow : invRowFor country region dt fs (locality, addrs) = some lr) :
    (addresses.filterMap (invRowFor country region dt fs)).find?
        (fun r => r.locality_name == locality) = some lr := by
  induction addresses with
  | nil => cases hmem
  | cons e rest ih =>
    simp only [List.map_cons, List.nodup_cons] at hnodup
    rw [List.filterMap_cons]
    rcases List.mem_cons.mp hmem with hh | hh
    · subst hh
      rw [hrow, List.find?_cons]
      have hname : (lr.locality_name == locality) = true := by
        rw [(invRowFor_name hrow).1]
        exact beq_self_eq_true locality
      rw [hname]
    · have hkey : e.1 ≠ locality := by
        intro hcon
        apply hnodup.1
        rw [hcon]
        exact List.mem_map_of_mem Prod.fst hh
      cases hre : invRowFor country region dt fs e with
      | none => exact ih hnodup.2 hh
      | some r =>
        have hpred : (r.locality_name == locality) = false := by
          rw [(invRowFor_name hre).1]
          exact beq_eq_false_iff_ne.mpr hkey
        rw [List.find?_cons, hpred]
        exact ih hnodup.2 hh

/-- C3 (amended): for every address `A = (street, housenumber)` a fresh
ingestion run writes into a locality address table, forward resolution on
the comma-separated string of the run's country, `A`'s locality, street
and housenumber returns exactly the coordinate stored for `A`, provided
that the four fields contain no commas and carry no leading or trailing
whitespace, that SQLite's ASCII lowercasing of the country name agrees
with Python's lowercasing of it, and that every row of that locality's
table file matching `(street, housenumber)` carries `A`'s coordinate (in
particular when `(street, housenumber)` occurs only once in the file). -/
theorem C3_forward_roundtrip (country region dt locality : String)
    (addresses : List (String × List AddrIn)) (nd : List (Nat × (ℚ × ℚ)))
    (addrs : List AddrIn) (a : AddrIn) (row : AddrRow)
    (run : FS) (hrun : run = runIngestion country region dt addresses nd emptyFS)
    (hnodup : (addresses.map Prod.fst).Nodup)
    (hmem : (locality, addrs) ∈ addresses)
    (ha : a ∈ addrs)
    (hagg : aggregate nd a = some row)
    (hcC : ',' ∉ country.data) (hcL : ',' ∉ locality.data)
    (hcS : ',' ∉ a.street.data) (hcH : ',' ∉ a.housenumber.data)
    (hsC : pyStripChars country.data = country.data)
    (hsL : pyStripChars locality.data = locality.data)
    (hsS : pyStripChars a.street.data = a.street.data)
    (hsH : pyStripChars a.housenumber.data = a.housenumber.data)
    (hcase : sqliteLowerStr country = pyLowerStr country)
    (huniq : ∀ r ∈ (run.dbAt (dbPathOf country region dt locality)).getD [],
      r.street = a.street → r.housenumber = a.housenumber →
      r.latitude = row.latitude ∧ r.longitude = row.longitude) :
    get_coordinates run
        (country ++ ", " ++ locality ++ ", " ++ a.street ++ ", " ++ a.housenumber) =
      FwdOutcome.ok (pyLowerStr country) locality a.street a.housenumber
        row.latitude row.longitude := by
  subst hrun
  have hparse := parse_address_of_clean country locality a.street a.housenumber
    hcC hcL hcS hcH hsC hsL hsS hsH
  -- the written table at the locality's path
  have hpmem : dbPathOf country region dt locality ∈ pathsOf country region dt addresses :=
    List.mem_map.mpr ⟨(locality, addrs), hmem, rfl⟩
  have hdbP : (process_addresses_to_db nd country region dt addresses emptyFS).dbAt
      (dbPathOf country region dt locality) =
      some (rowsFor nd country region dt (dbPathOf country region dt locality) addresses) := by
    rw [process_dbAt nd country region dt addresses emptyFS, if_pos hpmem]
    rfl
  have hrowmem : row ∈ rowsFor nd country region dt
      (dbPathOf country region dt locality) addresses :=
    row_mem_rowsFor nd country region dt locality addresses addrs a row hmem ha hagg
  have htne : rowsFor nd country region dt (dbPathOf country region dt locality) addresses ≠ [] :=
    List.ne_nil_of_mem hrowmem
  obtain ⟨b, hb⟩ := Option.isSome_iff_exists.mp (envelope_isSome htne)
  -- the region inventory row generated for the locality
  have hrowInv : invRowFor country region dt
      (process_addresses_to_db nd country region dt addresses emptyFS) (locality, addrs) =
      some { locality_name := locality, db_path := dbPathOf country region dt locality,
             min_lat := b.min_lat, max_lat := b.max_lat,
             min_lon := b.min_lon, max_lon := b.max_lon } := by
    simp only [invRowFor, hdbP, hb]
  have hfind := find_invRow country region dt locality
    (process_addresses_to_db nd country region dt addresses emptyFS)
    addresses addrs _ hnodup hmem hrowInv
  -- the run takes the non-degenerate branch
  have hinvne : addresses.filterMap (invRowFor country region dt
      (process_addresses_to_db nd country region dt addresses emptyFS)) ≠ [] :=
    List.ne_nil_of_mem (List.mem_of_find?_eq_some hfind)
  obtain ⟨rb, hrb⟩ := Option.isSome_iff_exists.mp (locBounds_isSome hinvne)
  have hframe := process_frame nd country region dt addresses emptyFS
  have hrun_eq := (runIngestion_cases country region dt addresses nd).2 rb hrb
  rw [hrun_eq] at huniq ⊢
  -- the three resolution steps
  have hglobal : (update_global_inventory country rb
      (update_country_inventory country region rb
        (create_inventory_db country region dt addresses
          (process_addresses_to_db nd country region dt addresses emptyFS)))).globalInv =
      [countryRowOf country rb] := by
    show (update_country_inventory country region rb
        (create_inventory_db country region dt addresses
          (process_addresses_to_db nd country region dt addresses emptyFS))).globalInv ++
      [countryRowOf country rb] = [countryRowOf country rb]
    rw [show (update_country_inventory country region rb
        (create_inventory_db country region dt addresses
          (process_addresses_to_db nd country region dt addresses emptyFS))).globalInv =
        (process_addresses_to_db nd country region dt addresses emptyFS).globalInv from rfl,
      hframe.2.2]
    rfl
  have hfc : find_country_dir (update_global_inventory country rb
      (update_country_inventory country region rb
        (create_inventory_db country region dt addresses
          (process_addresses_to_db nd country region dt addresses emptyFS))))
      (pyLowerStr country) = some (countryDirOf country) := by
    unfold find_country_dir
    rw [hglobal, List.find?_cons]
    have hbeq : (sqliteLowerStr (countryRowOf country rb).country_name ==
        pyLowerStr country) = true := by
      rw [show (countryRowOf country rb).country_name = country from rfl, hcase]
      exact beq_self_eq_true _
    rw [hbeq]
    rfl
  have hck : alookup (update_global_inventory country rb
      (update_country_inventory country region rb
        (create_inventory_db country region dt addresses
          (process_addresses_to_db nd country region dt addresses emptyFS)))).countryInvs
      (countryDirOf country) = some [regionRowOf country region rb] := by
    rw [show (update_global_inventory country rb
        (update_country_inventory country region rb
          (create_inventory_db country region dt addresses
            (process_addresses_to_db nd country region dt addresses emptyFS)))).countryInvs =
        (update_country_inventory country region rb
          (create_inventory_db country region dt addresses
            (process_addresses_to_db nd country region dt addresses emptyFS))).countryInvs
      from rfl]
    unfold update_country_inventory
    rw [alookup_aupdate, if_pos rfl]
    rw [show (create_inventory_db country region dt addresses
        (process_addresses_to_db nd country region dt addresses emptyFS)).countryInvs =
        (process_addresses_to_db nd country region dt addresses emptyFS).countryInvs from rfl,
      hframe.2.1]
    rfl
  have hregionInv : alookup (update_global_inventory country rb
      (update_country_inventory country region rb
        (create_inventory_db country region dt addresses
          (process_addresses_to_db nd country region dt addresses emptyFS)))).regionInvs
      (regionDirOf country region) =
      some (addresses.filterMap (invRowFor country region dt
        (process_addresses_to_db nd country region dt addresses emptyFS))) := by
    rw [show (update_global_inventory country rb
        (update_country_inventory country region rb
          (create_inventory_db country region dt addresses
            (process_addresses_to_db nd country region dt addresses emptyFS)))).regionInvs =
        (create_inventory_db country region dt addresses
          (process_addresses_to_db nd country region dt addresses emptyFS)).regionInvs
      from rfl]
    rw [create_regionInv, hframe.1]
    rfl
  have hfl : find_locality_db (update_global_inventory country rb
      (update_country_inventory country region rb
        (create_inventory_db country region dt addresses
          (process_addresses_to_db nd country region dt addresses emptyFS))))
      (countryDirOf country) locality = some (dbPathOf country region dt locality) := by
    unfold find_locality_db
    rw [hck]
    show scanRegions _ locality [regionRowOf country region rb] = _
    simp only [scanRegions, show (regionRowOf country region rb).region_dir =
      regionDirOf country region from rfl, hregionInv, hfind]
  have hdbrun : (update_global_inventory country rb
      (update_country_inventory country region rb
        (create_inventory_db country region dt addresses
          (process_addresses_to_db nd country region dt addresses emptyFS)))).dbAt
      (dbPathOf country region dt locality) =
      some (rowsFor nd country region dt (dbPathOf country region dt locality) addresses) := by
    rw [show (update_global_inventory country rb
        (update_country_inventory country region rb
          (create_inventory_db country region dt addresses
            (process_addresses_to_db nd country region dt addresses emptyFS)))).dbAt
        (dbPathOf country region dt locality) =
        (process_addresses_to_db nd country region dt addresses emptyFS).dbAt
          (dbPathOf country region dt locality) from rfl]
    exact hdbP
  rw [hdbrun, Option.getD_some] at huniq
  have hfcoord : find_coordinates (update_global_inventory country rb
      (update_country_inventory country region rb
        (create_inventory_db country region dt addresses
          (process_addresses_to_db nd country region dt addresses emptyFS))))
      (dbPathOf country region dt locality) a.street a.housenumber =
      some (row.latitude, row.longitude) := by
    have hex : ((rowsFor nd country region dt (dbPathOf country region dt locality)
        addresses).find?
        (fun r => r.street == a.street && r.housenumber == a.housenumber)).isSome := by
      apply List.find?_isSome.mpr
      refine ⟨row, hrowmem, ?_⟩
      rw [(aggregate_fields hagg).1, (aggregate_fields hagg).2]
      simp
    obtain ⟨r0, hr0⟩ := Option.isSome_iff_exists.mp hex
    have hpred := List.find?_some hr0
    have hst : r0.street = a.street ∧ r0.housenumber = a.housenumber := by
      constructor
      · have hand := (Bool.and_eq_true _ _).mp hpred
        exact beq_iff_eq.mp hand.1
      · have hand := (Bool.and_eq_true _ _).mp hpred
        exact beq_iff_eq.mp hand.2
    obtain ⟨hlat, hlon⟩ := huniq r0 (List.mem_of_find?_eq_some hr0) hst.1 hst.2
    unfold find_coordinates
    rw [hdbrun]
    show ((rowsFor nd country region dt (dbPathOf country region dt locality)
        addresses).find?
        (fun r => r.street == a.street && r.housenumber == a.housenumber)).map
      (fun r => (r.latitude, r.longitude)) = some (row.latitude, row.longitude)
    rw [hr0, show Option.map (fun r : AddrRow => (r.latitude, r.longitude)) (some r0) =
      some (r0.latitude, r0.longitude) from rfl, hlat, hlon]
  -- assemble
  simp only [get_coordinates, hparse, hfc, hfl, hfcoord]

/-- The run used by the C3 counterexample: the street name contains a
comma. -/
def c3Run : FS :=
  runIngestion "pl" "maz" "t" [("wola", [⟨"a,b", "1", [1]⟩])] [(1, (10, 20))] emptyFS

/-- C3 counterexample: the address `("a,b", "1")` of locality `wola` is
successfully written into the locality table, but forward resolution on
the exact comma-separated string of its country, locality, street and
housenumber splits into five fields and exits fatally instead of
returning the stored coordinate. -/
theorem C3_counterexample_comma_in_street :
    c3Run.dbAt (dbPathOf "pl" "maz" "t" "wola") =
      some [{ street := "a,b", housenumber := "1", latitude := 10, longitude := 20 }] ∧
    get_coordinates c3Run ("pl" ++ ", " ++ "wola" ++ ", " ++ "a,b" ++ ", " ++ "1") =
      FwdOutcome.fatal := by
  constructor
  · norm_num +decide [c3Run, runIngestion, process_addresses_to_db, create_inventory_db,
      invRowFor, update_country_inventory, update_global_inventory, FS.dbAt, FS.setDb,
      alookup, aupdate, aggregate, envelope, qmin, qmax, locBounds, regBounds, emptyFS,
      List.filterMap_cons, min_def, max_def]
  · have hp : parse_address ("pl" ++ ", " ++ "wola" ++ ", " ++ "a,b" ++ ", " ++ "1") =
        none := by decide
    unfold get_coordinates
    rw [hp]

/-- The run used by the C3 witness. -/
def c3WitnessRun : FS :=
  runIngestion "pl" "maz" "t" [("wola", [⟨"Main", "5", [1]⟩])] [(1, (10, 20))] emptyFS

/-- Witness for the amended C3 at a clean one-address run. -/
theorem C3_forward_roundtrip_witness :
    get_coordinates c3WitnessRun ("pl" ++ ", " ++ "wola" ++ ", " ++ "Main" ++ ", " ++ "5") =
      FwdOutcome.ok (pyLowerStr "pl") "wola" "Main" "5" 10 20 := by
  have htab : (c3WitnessRun.dbAt (dbPathOf "pl" "maz" "t" "wola")).getD [] =
      [{ street := "Main", housenumber := "5", latitude := 10, longitude := 20 }] := by
    norm_num +decide [c3WitnessRun, runIngestion, process_addresses_to_db,
      create_inventory_db, invRowFor, update_country_inventory, update_global_inventory,
      FS.dbAt, FS.setDb, alookup, aupdate, aggregate, envelope, qmin, qmax, locBounds,
      regBounds, emptyFS, List.filterMap_cons, min_def, max_def]
  have hagg : aggregate [(1, (10, 20))] ⟨"Main", "5", [1]⟩ =
      some ⟨"Main", "5", 10, 20⟩ := by
    norm_num [aggregate, alookup, List.filterMap_cons]
  exact C3_forward_roundtrip "pl" "maz" "t" "wola"
    [("wola", [⟨"Main", "5", [1]⟩])] [(1, (10, 20))] [⟨"Main", "5", [1]⟩]
    ⟨"Main", "5", [1]⟩ ⟨"Main", "5", 10, 20⟩ c3WitnessRun rfl
    (by decide) (by decide) (by decide) hagg
    (by decide) (by decide) (by decide) (by decide)
    (by decide) (by decide) (by decide) (by decide)
    (by decide)
    (by intro r hr h1 h2
        rw [htab] at hr
        rw [List.mem_singleton] at hr
        subst hr
        exact ⟨rfl, rfl⟩)

end OSM
